import Mathlib

/-!
Shallow embedding of the fuzzy column-matching core of the Sql_Agent
repository (`src/fuzzy_matcher.py`, plus the natural-language token
extraction helper of `src/sql_generator.py`), together with proofs about the
specification claims.

Modelling conventions:
* Python strings are Lean `String`s (structures over `List Char`); the ASCII
  fragment of `lower()`, `strip()`, `isalpha()` etc. is modelled, which covers
  every string constant appearing in the repository.
* Python floats that carry similarity scores are modelled as exact rationals
  `ℚ` (every score the program produces is a ratio of small integers).
* Python dicts are modelled as association lists in insertion order; Python
  sets as duplicate-free lists in insertion order.
* The third-party `rapidfuzz` scorers (`fuzz.WRatio`, `fuzz.partial_ratio`,
  `process.extract`) are not part of the repository's sources; they are
  modelled from the spec's description of them ("weighted-ratio style
  metric", "partial-ratio style similarity", best-`limit` extraction) and
  from the library's documented algorithm.  Definitions modelled this way say
  so in their doc comment.
-/

namespace SqlAgent

/-- Python whitespace class `\s` (ASCII): space, tab, newline, carriage
return, vertical tab, form feed. -/
def pyWs (c : Char) : Bool :=
  c == ' ' || c == '\t' || c == '\n' || c == '\r' || c == '\x0b' || c == '\x0c'

/-- Python `str.lower()` (ASCII model). -/
def pyLower (s : String) : String := ⟨s.data.map Char.toLower⟩

/-- Python `str.strip()` with no argument: drop leading and trailing whitespace. -/
def pyStrip (s : String) : String :=
  ⟨((s.data.dropWhile pyWs).reverse.dropWhile pyWs).reverse⟩

/-- Whether the first list is a prefix of the second (Boolean). -/
def isPrefixL : List Char → List Char → Bool
  | [], _ => true
  | _ :: _, [] => false
  | a :: as, b :: bs => a == b && isPrefixL as bs

/-- Whether the first list is a suffix of the second (Boolean). -/
def isSuffixL (a b : List Char) : Bool := isPrefixL a.reverse b.reverse

/-- Whether the first list occurs contiguously inside the second
(Python's `sub in s`; the empty list occurs in everything). -/
def isInfixL : List Char → List Char → Bool
  | a, [] => isPrefixL a []
  | a, b :: bs => isPrefixL a (b :: bs) || isInfixL a bs

/-- Python `sub in s` on strings. -/
def pyIn (sub s : String) : Bool := isInfixL sub.data s.data

theorem isPrefixL_length {a b : List Char} (h : isPrefixL a b = true) :
    a.length ≤ b.length := by
  induction a generalizing b with
  | nil => simp
  | cons x xs ih =>
    cases b with
    | nil => simp [isPrefixL] at h
    | cons y ys =>
      simp only [isPrefixL, Bool.and_eq_true] at h
      simpa using ih h.2

/-- Fuel-driven core of Python `str.replace(old, new)` (structural
recursion on the fuel so that the kernel can evaluate it; the fuel is
always at least the length of the remaining input). -/
def replaceLAux (pat rep : List Char) : Nat → List Char → List Char
  | 0, s => s
  | fuel + 1, s =>
    if pat ≠ [] ∧ isPrefixL pat s = true then
      rep ++ replaceLAux pat rep fuel (s.drop pat.length)
    else
      match s with
      | [] => []
      | c :: rest => c :: replaceLAux pat rep fuel rest

/-- Python `str.replace(old, new)`: replace all non-overlapping occurrences,
scanning left to right (the empty pattern is never used by this program and
is treated as "no occurrence"). -/
def replaceL (pat rep : List Char) (s : List Char) : List Char :=
  replaceLAux pat rep s.length s

/-- Python `str.split()` with no arguments: split on whitespace runs,
dropping empty pieces (accumulator-based scanner). -/
def splitWsAux : List Char → List Char → List (List Char)
  | [], cur => if cur = [] then [] else [cur.reverse]
  | c :: rest, cur =>
    if pyWs c then
      if cur = [] then splitWsAux rest [] else cur.reverse :: splitWsAux rest []
    else splitWsAux rest (c :: cur)

/-- Python `str.split()` with no arguments. -/
def splitWsL (s : List Char) : List (List Char) := splitWsAux s []

/-- Python `str.split(sep)` for a one-character separator (keeps empty pieces). -/
def splitOnCAux (sep : Char) : List Char → List Char → List (List Char)
  | [], cur => [cur.reverse]
  | c :: rest, cur =>
    if c == sep then cur.reverse :: splitOnCAux sep rest []
    else splitOnCAux sep rest (c :: cur)

/-- Python `str.split(sep)` for a one-character separator. -/
def splitOnC (sep : Char) (s : List Char) : List (List Char) := splitOnCAux sep s []

/-- Python `" ".join(words)`. -/
def joinSpL : List (List Char) → List Char
  | [] => []
  | [w] => w
  | w :: ws => w ++ ' ' :: joinSpL ws

/-- Lexicographic order on character lists, as Python compares strings. -/
def lexLe : List Char → List Char → Bool
  | [], _ => true
  | _ :: _, [] => false
  | x :: xs, y :: ys => if x == y then lexLe xs ys else decide (x < y)

/-- Python `sorted(words)` (stable; duplicates kept). -/
def sortTokensL (l : List (List Char)) : List (List Char) :=
  List.insertionSort (fun a b => lexLe a b = true) l

/-- Remove duplicates, keeping first occurrences (models a Python set whose
iteration order we fix to insertion order). -/
def dedupL (l : List (List Char)) : List (List Char) :=
  l.foldl (fun acc x => if acc.contains x then acc else acc ++ [x]) []

/-- One row-update step of the longest-common-subsequence dynamic program:
walk the second word together with the previous row. -/
def lcsRowAux (c : Char) : List Char → Nat → List Nat → Nat → List Nat
  | [], _, _, _ => []
  | b :: bs, diag, prest, cur =>
    match prest with
    | [] => []
    | pj :: prest2 =>
      let v := if b == c then diag + 1 else max cur pj
      v :: lcsRowAux c bs pj prest2 v

/-- New DP row after consuming one character of the first word. -/
def lcsRow (c : Char) (bs : List Char) (prev : List Nat) : List Nat :=
  match prev with
  | [] => []
  | p0 :: rest => 0 :: lcsRowAux c bs p0 rest 0

/-- Length of the longest common subsequence of two character lists. -/
def lcsLen (as bs : List Char) : Nat :=
  (as.foldl (fun row c => lcsRow c bs row) (List.replicate (bs.length + 1) 0)).getLastD 0

/-- Indel distance (Levenshtein with insertions and deletions only). -/
def indelDist (a b : List Char) : Nat := a.length + b.length - 2 * lcsLen a b

/-- The value `100 - 100 * d / t` as an exact rational (`100` when `t = 0`,
matching rational arithmetic where division by zero is zero).  All rapidfuzz
similarity formulas below are of this shape.  (`mkRat` is used instead of
`ℚ`'s field operations so the kernel can evaluate scores;
`subRatio_eq` relates it to the field form.) -/
def subRatio (d t : ℕ) : ℚ :=
  if t = 0 then 100 else mkRat (100 * ((t : Int) - (d : Int))) t

theorem subRatio_eq (d t : ℕ) : subRatio d t = 100 - 100 * (d : ℚ) / (t : ℚ) := by
  unfold subRatio
  by_cases h : t = 0
  · simp [h]
  · have ht : (0 : ℚ) < (t : ℚ) := by exact_mod_cast Nat.pos_of_ne_zero h
    rw [if_neg h, Rat.mkRat_eq_div]
    field_simp
    push_cast
    ring

theorem subRatio_le_100 (d t : ℕ) : subRatio d t ≤ 100 := by
  rw [subRatio_eq]
  have : 0 ≤ 100 * (d : ℚ) / (t : ℚ) := by positivity
  linarith

/-- Scaling a rational by `n / d` (used for rapidfuzz's 0.95/0.9/0.6
weights), again in kernel-evaluable form. -/
def qscale (n d : ℕ) (q : ℚ) : ℚ := mkRat ((n : Int) * q.num) (d * q.den)

theorem qscale_eq (n d : ℕ) (q : ℚ) (hd : d ≠ 0) :
    qscale n d q = ((n : ℚ) / (d : ℚ)) * q := by
  unfold qscale
  rw [Rat.mkRat_eq_div]
  have h1 : ((d * q.den : ℕ) : ℚ) ≠ 0 := by
    exact_mod_cast Nat.mul_ne_zero hd q.den_nz
  have hden : ((q.den : ℕ) : ℚ) ≠ 0 := by exact_mod_cast q.den_nz
  have hd' : ((d : ℕ) : ℚ) ≠ 0 := by exact_mod_cast hd
  calc (((n : Int) * q.num : Int) : ℚ) / ((d * q.den : ℕ) : ℚ)
      = ((n : ℚ) * (q.num : ℚ)) / ((d : ℚ) * (q.den : ℚ)) := by push_cast; ring
    _ = ((n : ℚ) / (d : ℚ)) * ((q.num : ℚ) / (q.den : ℚ)) := by
        rw [div_mul_div_comm]
    _ = ((n : ℚ) / (d : ℚ)) * q := by rw [Rat.num_div_den]

theorem qscale_le_100 {q : ℚ} (n d : ℕ) (hq : q ≤ 100) (h0 : 0 ≤ q) (hnd : n ≤ d) :
    qscale n d q ≤ 100 := by
  by_cases hd : d = 0
  · subst hd
    have hn : n = 0 := Nat.le_zero.mp hnd
    subst hn
    unfold qscale
    simp [mkRat]
  · rw [qscale_eq n d q hd]
    have hd' : (0 : ℚ) < (d : ℚ) := by exact_mod_cast Nat.pos_of_ne_zero hd
    have hr1 : (n : ℚ) / (d : ℚ) ≤ 1 := by
      rw [div_le_one hd']
      exact_mod_cast hnd
    have hr0 : 0 ≤ (n : ℚ) / (d : ℚ) := by positivity
    calc ((n : ℚ) / (d : ℚ)) * q ≤ 1 * q := mul_le_mul_of_nonneg_right hr1 h0
      _ = q := one_mul q
      _ ≤ 100 := hq

/-- Exact rational subtraction in kernel-evaluable form (used for the
second fuzzy pass's threshold `70 - 10`). -/
def qsub (a b : ℚ) : ℚ := mkRat (a.num * (b.den : Int) - b.num * (a.den : Int)) (a.den * b.den)

/-- Modelled from the spec: `rapidfuzz` `fuzz.ratio` (the library is an
external dependency, not part of src/): normalized indel similarity scaled
to 0..100 — `100 * (1 - dist / (len1 + len2))`, 100 for two empty
strings. -/
def ratioQ (a b : List Char) : ℚ :=
  subRatio (indelDist a b) (a.length + b.length)

theorem ratioQ_le_100 (a b : List Char) : ratioQ a b ≤ 100 := subRatio_le_100 _ _

theorem ratioQ_nonneg (a b : List Char) : 0 ≤ ratioQ a b := by
  unfold ratioQ subRatio
  by_cases h : a.length + b.length = 0
  · simp [h]
  · rw [if_neg h, Rat.mkRat_eq_div]
    apply div_nonneg
    · have h1 : ((indelDist a b : ℕ) : ℚ) ≤ ((a.length + b.length : ℕ) : ℚ) := by
        exact_mod_cast Nat.sub_le (a.length + b.length) (2 * lcsLen a b)
      push_cast
      push_cast at h1
      linarith
    · positivity

/-- Modelled from the spec: the sliding windows that `rapidfuzz`'s
partial-ratio core inspects when the needle `s1` is no longer than the
haystack `s2`: shorter prefixes, every full-needle-length window, and
shorter suffixes, each kept only when its boundary character occurs in the
needle (the library's exactness-preserving skip). -/
def partialWindows (s1 s2 : List Char) : List (List Char) :=
  let len1 := s1.length
  let len2 := s2.length
  let pre := ((List.range len1).drop 1).filterMap (fun i =>
    match (s2.take i).getLast? with
    | some ch => if s1.contains ch then some (s2.take i) else none
    | none => none)
  let mid := (List.range (len2 - len1)).filterMap (fun i =>
    let w := (s2.drop i).take len1
    match w.getLast? with
    | some ch => if s1.contains ch then some w else none
    | none => none)
  let suf := ((List.range len2).drop (len2 - len1)).filterMap (fun i =>
    match (s2.drop i).head? with
    | some ch => if s1.contains ch then some (s2.drop i) else none
    | none => none)
  pre ++ mid ++ suf

/-- Modelled from the spec: partial-ratio core, needle first: the best plain
ratio over the inspected windows (0 when none qualifies). -/
def partialRatioImpl (s1 s2 : List Char) : ℚ :=
  ((partialWindows s1 s2).map (fun w => ratioQ s1 w)).foldl max 0

theorem foldl_max_le {c : ℚ} (l : List ℚ) (a : ℚ) (ha : a ≤ c)
    (h : ∀ x ∈ l, x ≤ c) : l.foldl max a ≤ c := by
  induction l generalizing a with
  | nil => simpa using ha
  | cons x xs ih =>
    simp only [List.foldl_cons]
    exact ih (max a x) (max_le ha (h x (by simp))) (fun y hy => h y (by simp [hy]))

theorem foldl_max_init_le (l : List ℚ) (a : ℚ) : a ≤ l.foldl max a := by
  induction l generalizing a with
  | nil => simp
  | cons x xs ih => exact le_trans (le_max_left a x) (ih (max a x))

theorem partialRatioImpl_le_100 (s1 s2 : List Char) : partialRatioImpl s1 s2 ≤ 100 := by
  unfold partialRatioImpl
  refine foldl_max_le _ 0 (by norm_num) ?_
  intro x hx
  rcases List.mem_map.mp hx with ⟨w, _, rfl⟩
  exact ratioQ_le_100 _ _

theorem partialRatioImpl_nonneg (s1 s2 : List Char) : 0 ≤ partialRatioImpl s1 s2 :=
  foldl_max_init_le _ 0

/-- Modelled from the spec: `rapidfuzz` `fuzz.partial_ratio`: 100 for two
empty strings, otherwise the partial-ratio core applied with the shorter
string as needle (both directions when the lengths are equal). -/
def partial_ratio (s1 s2 : List Char) : ℚ :=
  if s1 = [] ∧ s2 = [] then 100
  else if s1.length ≤ s2.length then
    if s1.length = s2.length then max (partialRatioImpl s1 s2) (partialRatioImpl s2 s1)
    else partialRatioImpl s1 s2
  else partialRatioImpl s2 s1

theorem partial_ratio_le_100 (s1 s2 : List Char) : partial_ratio s1 s2 ≤ 100 := by
  unfold partial_ratio
  split
  · norm_num
  · split
    · split
      · exact max_le (partialRatioImpl_le_100 _ _) (partialRatioImpl_le_100 _ _)
      · exact partialRatioImpl_le_100 _ _
    · exact partialRatioImpl_le_100 _ _

theorem partial_ratio_nonneg (s1 s2 : List Char) : 0 ≤ partial_ratio s1 s2 := by
  unfold partial_ratio
  split
  · norm_num
  · split
    · split
      · exact le_trans (partialRatioImpl_nonneg s1 s2) (le_max_left _ _)
      · exact partialRatioImpl_nonneg _ _
    · exact partialRatioImpl_nonneg _ _

/-- Modelled from the spec: `rapidfuzz` `fuzz.token_sort_ratio`: plain ratio
of the space-joined sorted token lists. -/
def token_sort_ratio (s1 s2 : List Char) : ℚ :=
  ratioQ (joinSpL (sortTokensL (splitWsL s1))) (joinSpL (sortTokensL (splitWsL s2)))

/-- Modelled from the spec: `rapidfuzz` `fuzz.token_set_ratio`: set-based
token comparison (100 when the token sets intersect and one contains the
other; otherwise the best of the difference-based `100 - 100*d/t`
ratios). -/
def token_set_ratio (s1 s2 : List Char) : ℚ :=
  let ta := dedupL (sortTokensL (splitWsL s1))
  let tb := dedupL (sortTokensL (splitWsL s2))
  if ta = [] ∨ tb = [] then 0
  else
    let inter := ta.filter (fun t => tb.contains t)
    let dab := ta.filter (fun t => !(tb.contains t))
    let dba := tb.filter (fun t => !(ta.contains t))
    if inter ≠ [] ∧ (dab = [] ∨ dba = []) then 100
    else
      let abJ := joinSpL dab
      let baJ := joinSpL dba
      let sectLen := (joinSpL inter).length
      let one : Nat := if sectLen = 0 then 0 else 1
      let sectAbLen := sectLen + one + abJ.length
      let sectBaLen := sectLen + one + baJ.length
      let base := subRatio (indelDist abJ baJ) (sectAbLen + sectBaLen)
      if sectLen = 0 then base
      else
        let abRatio := subRatio (one + abJ.length) (sectLen + sectAbLen)
        let baRatio := subRatio (one + baJ.length) (sectLen + sectBaLen)
        max base (max abRatio baRatio)

theorem token_set_ratio_le_100 (s1 s2 : List Char) : token_set_ratio s1 s2 ≤ 100 := by
  unfold token_set_ratio
  dsimp only
  split
  · norm_num
  · split
    · norm_num
    · split
      · exact subRatio_le_100 _ _
      · exact max_le (subRatio_le_100 _ _) (max_le (subRatio_le_100 _ _) (subRatio_le_100 _ _))

/-- Modelled from the spec: `rapidfuzz` token ratio = max of sort- and
set-based token ratios. -/
def token_ratioFn (s1 s2 : List Char) : ℚ := max (token_sort_ratio s1 s2) (token_set_ratio s1 s2)

/-- Modelled from the spec: partial token-sort ratio. -/
def partial_token_sort_ratio (s1 s2 : List Char) : ℚ :=
  partial_ratio (joinSpL (sortTokensL (splitWsL s1))) (joinSpL (sortTokensL (splitWsL s2)))

/-- Modelled from the spec: partial token-set ratio. -/
def partial_token_set_ratio (s1 s2 : List Char) : ℚ :=
  let ta := dedupL (sortTokensL (splitWsL s1))
  let tb := dedupL (sortTokensL (splitWsL s2))
  if ta = [] ∨ tb = [] then 0
  else if (ta.filter (fun t => tb.contains t)) ≠ [] then 100
  else partial_ratio (joinSpL (ta.filter (fun t => !(tb.contains t))))
        (joinSpL (tb.filter (fun t => !(ta.contains t))))

/-- Modelled from the spec: partial token ratio. -/
def partial_token_ratioFn (s1 s2 : List Char) : ℚ :=
  max (partial_token_sort_ratio s1 s2) (partial_token_set_ratio s1 s2)

theorem token_sort_ratio_le_100 (s1 s2 : List Char) : token_sort_ratio s1 s2 ≤ 100 :=
  ratioQ_le_100 _ _

theorem partial_token_ratioFn_le_100 (s1 s2 : List Char) : partial_token_ratioFn s1 s2 ≤ 100 := by
  unfold partial_token_ratioFn partial_token_sort_ratio partial_token_set_ratio
  refine max_le (partial_ratio_le_100 _ _) ?_
  dsimp only
  split
  · norm_num
  · split
    · norm_num
    · exact partial_ratio_le_100 _ _

theorem partial_token_ratioFn_nonneg (s1 s2 : List Char) : 0 ≤ partial_token_ratioFn s1 s2 :=
  le_trans (partial_ratio_nonneg _ _) (le_max_left _ _)

/-- Modelled from the spec: `rapidfuzz` `fuzz.WRatio`, the weighted-ratio
scorer used for the first fuzzy pass: 0 when either string is empty;
otherwise the plain ratio combined with the token ratio scaled by 0.95 when
the length ratio is below 1.5 (`2·max < 3·min`), and with the partial
ratios scaled by 0.9 (0.6 for length ratio at least 8) otherwise;
`0.95 · 0.9 = 171/200` and `0.95 · 0.6 = 57/100`. -/
def WRatio (s1 s2 : List Char) : ℚ :=
  if s1.length = 0 ∨ s2.length = 0 then 0
  else
    let maxL := max s1.length s2.length
    let minL := min s1.length s2.length
    let base := ratioQ s1 s2
    if 2 * maxL < 3 * minL then max base (qscale 19 20 (token_ratioFn s1 s2))
    else if maxL < 8 * minL then
      max base (max (qscale 9 10 (partial_ratio s1 s2))
        (qscale 171 200 (partial_token_ratioFn s1 s2)))
    else
      max base (max (qscale 3 5 (partial_ratio s1 s2))
        (qscale 57 100 (partial_token_ratioFn s1 s2)))

theorem token_ratioFn_nonneg (s1 s2 : List Char) : 0 ≤ token_ratioFn s1 s2 := by
  refine le_trans ?_ (le_max_left (token_sort_ratio s1 s2) (token_set_ratio s1 s2))
  exact ratioQ_nonneg _ _

theorem WRatio_le_100 (s1 s2 : List Char) : WRatio s1 s2 ≤ 100 := by
  unfold WRatio
  dsimp only
  split
  · norm_num
  · split
    · refine max_le (ratioQ_le_100 _ _) ?_
      refine qscale_le_100 19 20 ?_ (token_ratioFn_nonneg s1 s2) (by norm_num)
      exact max_le (token_sort_ratio_le_100 s1 s2) (token_set_ratio_le_100 s1 s2)
    · split
      · refine max_le (ratioQ_le_100 _ _) (max_le ?_ ?_)
        · exact qscale_le_100 9 10 (partial_ratio_le_100 _ _) (partial_ratio_nonneg _ _)
            (by norm_num)
        · exact qscale_le_100 171 200 (partial_token_ratioFn_le_100 _ _)
            (partial_token_ratioFn_nonneg _ _) (by norm_num)
      · refine max_le (ratioQ_le_100 _ _) (max_le ?_ ?_)
        · exact qscale_le_100 3 5 (partial_ratio_le_100 _ _) (partial_ratio_nonneg _ _)
            (by norm_num)
        · exact qscale_le_100 57 100 (partial_token_ratioFn_le_100 _ _)
            (partial_token_ratioFn_nonneg _ _) (by norm_num)

/-- Modelled from the spec: `rapidfuzz` `process.extract`: score every
choice, stable-sort by score descending, keep the best `limit` entries as
(choice, score, index) triples. -/
def processExtract (scorer : List Char → List Char → ℚ) (query : List Char)
    (choices : List (List Char)) (limit : Nat) : List (List Char × ℚ × Nat) :=
  (List.insertionSort (fun a b => b.2.1 ≤ a.2.1)
    (choices.enum.map (fun p => (p.2, scorer query p.2, p.1)))).take limit

theorem processExtract_score_le {scorer : List Char → List Char → ℚ} {query : List Char}
    {choices : List (List Char)} {limit : Nat} {c : ℚ}
    (hs : ∀ x y, scorer x y ≤ c) :
    ∀ t ∈ processExtract scorer query choices limit, t.2.1 ≤ c := by
  intro t ht
  have h1 : t ∈ List.insertionSort (fun a b => b.2.1 ≤ a.2.1)
      (choices.enum.map (fun p => (p.2, scorer query p.2, p.1))) :=
    List.mem_of_mem_take ht
  have h2 := (List.perm_insertionSort (fun a b => b.2.1 ≤ a.2.1)
      (choices.enum.map (fun p => (p.2, scorer query p.2, p.1)))).mem_iff.mp h1
  rcases List.mem_map.mp h2 with ⟨p, _, rfl⟩
  exact hs _ _

/-- One column-info record of the schema map (`find_column_matches` and its
callers read only the `column` key; the other keys of the Python dict are
never consulted by the matching core). -/
structure ColInfo where
  column : String
deriving DecidableEq

/-- The schema map: table name to its ordered column records (a Python dict
in insertion order). -/
def Schema : Type := List (String × List ColInfo)

/-- One entry of the flattened catalog built at the start of
`find_column_matches` (the `all_columns` dicts). -/
structure CatCol where
  column : String
  table : String
  column_lower : String
  searchable_text : String
deriving DecidableEq

/-- The `ColumnMatch` dataclass of `src/fuzzy_matcher.py`. -/
structure ColumnMatch where
  original_term : String
  matched_column : String
  table_name : String
  similarity_score : ℚ
  match_type : String
  suggestion : Option String := none
deriving DecidableEq

/-- `table_contexts` of `_get_table_context`. -/
def table_contexts : List (String × String) := [
  ("Account", "organization company school client customer"),
  ("Contact", "person individual user staff instructor teacher"),
  ("Opportunity", "deal project program engagement grant donation"),
  ("Session", "class workshop program course meeting"),
  ("ProgramInstructorAvailability", "instructor teacher staff availability schedule"),
  ("Student", "pupil learner participant child"),
  ("Campaign", "marketing outreach communication email"),
  ("Lead", "prospect potential customer inquiry")]

/-- `_get_table_context`: business context terms for a table (empty when the
table is unknown). -/
def _get_table_context (table_name : String) : String :=
  ((table_contexts.find? (fun p => p.1 == table_name)).map (fun p => p.2)).getD ""

/-- `_create_searchable_text`: the original lowercased name, an
underscore-stripped variant, a space-separated variant (only when not
already contained), and the table context (when non-empty). -/
def _create_searchable_text (column_name table_name : String) : String :=
  let searchable := pyLower column_name
  let clean_name := pyLower ⟨replaceL "__c".data [] (replaceL "_".data [] column_name.data)⟩
  let searchable1 := if clean_name ≠ searchable then searchable ++ " " ++ clean_name else searchable
  let spaced_name := pyLower ⟨replaceL "__c".data [] (replaceL "_".data " ".data column_name.data)⟩
  let searchable2 :=
    if pyIn spaced_name searchable1 = false then searchable1 ++ " " ++ spaced_name else searchable1
  let table_context := _get_table_context table_name
  if table_context ≠ "" then searchable2 ++ " " ++ table_context else searchable2

/-- The flat `all_columns` catalog built from the schema map at the start of
`find_column_matches`. -/
def buildCatalog (schema_info : Schema) : List CatCol :=
  schema_info.flatMap (fun p =>
    p.2.map (fun ci =>
      { column := ci.column, table := p.1,
        column_lower := pyLower ci.column,
        searchable_text := _create_searchable_text ci.column p.1 }))

/-- `column_aliases` of the `FuzzyColumnMatcher` constructor, in source
order. -/
def column_aliases : List (String × List String) := [
  ("id", ["identifier", "key", "pk"]),
  ("name", ["title", "label", "description"]),
  ("email", ["mail", "e-mail", "email_address"]),
  ("phone", ["telephone", "tel", "mobile", "cell"]),
  ("date", ["dt", "datetime", "timestamp"]),
  ("created", ["created_date", "creation_date", "date_created"]),
  ("modified", ["updated", "modified_date", "last_modified", "date_modified"]),
  ("status", ["state", "condition", "stage"]),
  ("type", ["category", "kind", "classification"]),
  ("amount", ["value", "cost", "price", "total"]),
  ("instructor", ["teacher", "staff", "educator", "facilitator"]),
  ("student", ["pupil", "learner", "participant"]),
  ("school", ["institution", "organization", "org", "academy"]),
  ("program", ["course", "class", "session", "workshop"]),
  ("semester", ["term", "period", "academic_year"]),
  ("contact", ["person", "individual", "user"]),
  ("account", ["organization", "company", "client", "customer"]),
  ("opportunity", ["deal", "project", "engagement"]),
  ("account_name", ["organization_name", "company_name"]),
  ("contact_name", ["person_name", "full_name"]),
  ("record_type", ["type", "category", "classification"]),
  ("stage_name", ["status", "stage", "phase"]),
  ("close_date", ["end_date", "completion_date"]),
  ("is_deleted", ["deleted", "active", "inactive"])]

/-- The (alias, canonical) pairs in the order the constructor writes them
into the reverse dict. -/
def aliasPairs : List (String × String) :=
  column_aliases.flatMap (fun p => p.2.map (fun a => (pyLower a, pyLower p.1)))

/-- The reverse alias index `alias_to_column`.  The Python dict is built with
overwriting assignments, so a lookup returns the canonical term of the LAST
alias occurrence. -/
def alias_to_column (a : String) : Option String :=
  (aliasPairs.reverse.find? (fun q => q.1 == a)).map (fun q => q.2)

/-- `self.similarity_threshold` (70). -/
def similarity_threshold : ℚ := 70

/-- `self.exact_threshold` (90). -/
def exact_threshold : ℚ := 90

/-- Phase 1 of `find_column_matches`: case-insensitive exact matches,
score 100, type "exact". -/
def exactMatches (search_term search_term_lower : String) (all_columns : List CatCol) :
    List ColumnMatch :=
  all_columns.filterMap (fun col =>
    if col.column_lower = search_term_lower then
      some { original_term := search_term, matched_column := col.column,
             table_name := col.table, similarity_score := 100, match_type := "exact" }
    else none)

/-- Phase 2 of `find_column_matches`: alias matches, score 95, type
"alias", for every catalog entry whose lowercased name contains the
canonical term of the alias. -/
def aliasMatches (search_term search_term_lower : String) (all_columns : List CatCol) :
    List ColumnMatch :=
  match alias_to_column search_term_lower with
  | none => []
  | some canonical_term =>
    all_columns.filterMap (fun col =>
      if pyIn canonical_term col.column_lower then
        some { original_term := search_term, matched_column := col.column,
               table_name := col.table, similarity_score := 95, match_type := "alias",
               suggestion := some ("'" ++ search_term ++ "' matched as alias for '"
                 ++ col.column ++ "'") }
      else none)

/-- The duplicate test used by the fuzzy passes and the pattern pass:
is a (matchedColumn, tableName) pair already in the accumulated list? -/
def hasPair (ms : List ColumnMatch) (column table : String) : Bool :=
  ms.any (fun m => m.matched_column == column && m.table_name == table)

/-- One step of the first fuzzy pass (WRatio against the lowercased column
names): keep a candidate scoring at least the similarity threshold and not
already present; classify as "exact" above the exact threshold, else
"fuzzy". -/
def fuzzyStepA (search_term : String) (all_columns : List CatCol)
    (acc : List ColumnMatch) (r : List Char × ℚ × Nat) : List ColumnMatch :=
  if similarity_threshold ≤ r.2.1 then
    match all_columns[r.2.2]? with
    | some col =>
      if hasPair acc col.column col.table then acc
      else
        let match_type := if exact_threshold ≤ r.2.1 then "exact" else "fuzzy"
        acc ++ [{ original_term := search_term, matched_column := col.column,
                  table_name := col.table, similarity_score := r.2.1,
                  match_type := match_type,
                  suggestion := if match_type = "fuzzy" then
                      some ("Did you mean '" ++ col.column ++ "'?")
                    else none }]
    | none => acc
  else acc

/-- One step of the second fuzzy pass (partial ratio against the searchable
texts): lower threshold max(60, 70 - 10), always type "fuzzy", context-match
suggestion. -/
def fuzzyStepB (search_term : String) (all_columns : List CatCol)
    (acc : List ColumnMatch) (r : List Char × ℚ × Nat) : List ColumnMatch :=
  if max 60 (qsub similarity_threshold 10) ≤ r.2.1 then
    match all_columns[r.2.2]? with
    | some col =>
      if hasPair acc col.column col.table then acc
      else acc ++ [{ original_term := search_term, matched_column := col.column,
                     table_name := col.table, similarity_score := r.2.1,
                     match_type := "fuzzy",
                     suggestion := some ("Did you mean '" ++ col.column
                       ++ "'? (context match)") }]
    | none => acc
  else acc

/-- Phase 3 of `find_column_matches`: the two fuzzy passes, each gated on
the accumulated result count being below `top_n`. -/
def fuzzyPhase (search_term search_term_lower : String) (all_columns : List CatCol)
    (top_n : Nat) (acc : List ColumnMatch) : List ColumnMatch :=
  if acc.length < top_n then
    let column_names := all_columns.map (fun c => c.column_lower.data)
    let fuzzy_results := processExtract WRatio search_term_lower.data column_names (top_n * 3)
    let acc1 := fuzzy_results.foldl (fuzzyStepA search_term all_columns) acc
    if acc1.length < top_n then
      let searchable_texts := all_columns.map (fun c => c.searchable_text.data)
      let fuzzy_results2 :=
        processExtract partial_ratio search_term_lower.data searchable_texts (top_n * 2)
      fuzzy_results2.foldl (fuzzyStepB search_term all_columns) acc1
    else acc1
  else acc

/-- The Salesforce `__c`-suffix step of `_find_pattern_matches`: when the
term does not already end in `__c`, every catalog entry equal to term+`__c`
is emitted at score 90, type "pattern" (no duplicate check). -/
def sfSuffixMatches (search_term : String) (all_columns : List CatCol) : List ColumnMatch :=
  if isSuffixL "__c".data search_term.data = false then
    let salesforce_term := search_term ++ "__c"
    all_columns.filterMap (fun col =>
      if col.column_lower = pyLower salesforce_term then
        some { original_term := search_term, matched_column := col.column,
               table_name := col.table, similarity_score := 90, match_type := "pattern",
               suggestion := some ("Salesforce custom field: '" ++ search_term
                 ++ "' -> '" ++ col.column ++ "'") }
      else none)
  else []

/-- The score-80 "pattern" entry the partial-word step emits for one
catalog column. -/
def partMatchOf (search_term : String) (col : CatCol) : ColumnMatch :=
  { original_term := search_term, matched_column := col.column,
    table_name := col.table, similarity_score := 80, match_type := "pattern",
    suggestion := some ("Partial match: '" ++ search_term
      ++ "' found in '" ++ col.column ++ "'") }

/-- One step of the partial-word loop of `_find_pattern_matches`: split the
lowercased name into word parts; emit score 80, type "pattern", when the
lowercased term equals or occurs inside a part and the pair is not already
in the pattern phase's own list. -/
def patternPartStep (search_term search_lower : String)
    (acc : List ColumnMatch) (col : CatCol) : List ColumnMatch :=
  let col_parts := splitWsL (replaceL "__c".data [] (replaceL "_".data " ".data col.column_lower.data))
  if col_parts.contains search_lower.data || col_parts.any (fun part => isInfixL search_lower.data part) then
    if hasPair acc col.column col.table then acc
    else acc ++ [partMatchOf search_term col]
  else acc

/-- `_find_pattern_matches`: the `__c`-suffix step followed by the
partial-word loop over the catalog (the duplicate check looks only at this
function's own local list). -/
def _find_pattern_matches (search_term : String) (all_columns : List CatCol) :
    List ColumnMatch :=
  let search_lower := pyLower search_term
  all_columns.foldl (patternPartStep search_term search_lower)
    (sfSuffixMatches search_term all_columns)

/-- The descending-score ordering used by the final sort
(`matches.sort(key=..., reverse=True)`, a stable sort). -/
def scoreGe (a b : ColumnMatch) : Prop := b.similarity_score ≤ a.similarity_score

instance : DecidableRel scoreGe := fun a b =>
  inferInstanceAs (Decidable (b.similarity_score ≤ a.similarity_score))

instance : IsTotal ColumnMatch scoreGe :=
  ⟨fun a b => le_total b.similarity_score a.similarity_score⟩

instance : IsTrans ColumnMatch scoreGe :=
  ⟨fun _ _ _ hab hbc => le_trans hbc hab⟩

/-- The accumulated match list of `find_column_matches` after all four
phases, before the final sort and truncation. -/
def matchesBeforeSort (search_term : String) (schema_info : Schema) (top_n : Nat) :
    List ColumnMatch :=
  let search_term_lower := pyStrip (pyLower search_term)
  let all_columns := buildCatalog schema_info
  let m2 := exactMatches search_term search_term_lower all_columns
    ++ aliasMatches search_term search_term_lower all_columns
  let m3 := fuzzyPhase search_term search_term_lower all_columns top_n m2
  if m3.length < top_n then m3 ++ _find_pattern_matches search_term all_columns else m3

/-- `find_column_matches`: the four phases, then a stable sort by similarity
score descending and truncation to the best `top_n`. -/
def find_column_matches (search_term : String) (schema_info : Schema) (top_n : Nat := 5) :
    List ColumnMatch :=
  (List.insertionSort scoreGe (matchesBeforeSort search_term schema_info top_n)).take top_n


/-- The apostrophe character. -/
def aposC : Char := '\''

/-- The backquote character. -/
def backquoteC : Char := Char.ofNat 96

/-- Python `%.1f`-style rendering of the (nonnegative) similarity scores the
program prints: one decimal digit, rounding half to even as float formatting
does.  Computed on the numerator/denominator directly (floor division and
remainder of `10·q`) so the kernel can evaluate it. -/
def formatQ1 (q : ℚ) : String :=
  let x := qscale 10 1 q
  let n : Int := x.num.fdiv (x.den : Int)
  let rem : Int := x.num - n * (x.den : Int)
  let n10 : Int := if (x.den : Int) < 2 * rem then n + 1
    else if 2 * rem < (x.den : Int) then n
    else if n % 2 = 0 then n else n + 1
  let m : Nat := n10.toNat
  toString (m / 10) ++ "." ++ toString (m % 10)

/-- Abstract syntax of the small regular-expression fragment the repository
uses: literals (matched case-insensitively against lowercased pattern
constants), single-character classes, lazy/greedy repetition of a class,
sequencing, alternation, and one capturing group. -/
inductive RE : Type where
  | eps : RE
  | lit : Char → RE
  | cls : (Char → Bool) → RE
  | rep : Bool → Bool → (Char → Bool) → RE
  | seq : RE → RE → RE
  | alt : RE → RE → RE
  | grp : RE → RE

/-- The candidate consumption counts of a class repetition, in backtracking
preference order: a lazy `+?`/`*?` tries short first, a greedy `+`/`*` tries
long first; `star` allows zero. -/
def repCounts (lazyRep star : Bool) (p : Char → Bool) (s : List Char) : List Nat :=
  let maxRun := (s.takeWhile p).length
  let lo : Nat := if star then 0 else 1
  let ks := (List.range (maxRun + 1)).filter (fun k => lo ≤ k)
  if lazyRep then ks else ks.reverse

/-- Backtracking matcher: all (remainder, captured groups) pairs for a match
of the pattern at the head of the input, in the preference order of Python's
`re` engine (leftmost alternatives first, lazy repetitions shortest first,
greedy repetitions longest first). -/
def matchRE : RE → List Char → List (List Char × List (List Char))
  | .eps, s => [(s, [])]
  | .lit c, s =>
    match s with
    | [] => []
    | x :: xs => if x.toLower == c then [(xs, [])] else []
  | .cls p, s =>
    match s with
    | [] => []
    | x :: xs => if p x then [(xs, [])] else []
  | .rep lz st p, s => (repCounts lz st p s).map (fun k => (s.drop k, []))
  | .seq a b, s =>
    (matchRE a s).flatMap (fun pr =>
      (matchRE b pr.1).map (fun qr => (qr.1, pr.2 ++ qr.2)))
  | .alt a b, s => matchRE a s ++ matchRE b s
  | .grp a, s =>
    (matchRE a s).map (fun pr => (pr.1, pr.2 ++ [s.take (s.length - pr.1.length)]))

/-- Python `re.findall` over a pattern with exactly one capturing group:
scan left to right, take the first (preferred) match at each position, emit
the group, continue after the match (advancing one character on a no-match
or an empty match). -/
def findAllFromAux (r : RE) : Nat → List Char → List (List Char)
  | 0, _ => []
  | fuel + 1, s =>
    match s with
    | [] =>
      match (matchRE r []).head? with
      | some pr => [pr.2.headD []]
      | none => []
    | c :: rest =>
      match (matchRE r (c :: rest)).head? with
      | some pr =>
        pr.2.headD [] ::
          (if pr.1.length < rest.length + 1 then findAllFromAux r fuel pr.1
           else findAllFromAux r fuel rest)
      | none => findAllFromAux r fuel rest

def findAllFrom (r : RE) (s : List Char) : List (List Char) :=
  findAllFromAux r (s.length + 1) s

/-- `re.findall` on strings. -/
def findAllS (r : RE) (s : String) : List String :=
  (findAllFrom r s.data).map (fun l => (⟨l⟩ : String))

/-- A sequence of case-insensitive literal characters. -/
def reStr (s : String) : RE := (s.data.map (fun c => RE.lit c.toLower)).foldr RE.seq RE.eps

/-- Sequence a list of patterns. -/
def reSeqL (l : List RE) : RE := l.foldr RE.seq RE.eps

/-- The `\w` class (ASCII model of Python word characters). -/
def wordP (c : Char) : Bool := c.isAlphanum || c == '_'

/-- The `.` class under `re.DOTALL`. -/
def dotAllP (_ : Char) : Bool := true

/-- Greedy one-or-more repetition of a class. -/
def plusG (p : Char → Bool) : RE := RE.rep false false p

/-- Lazy one-or-more repetition of a class. -/
def plusL (p : Char → Bool) : RE := RE.rep true false p

/-- Greedy zero-or-more repetition of a class. -/
def starG (p : Char → Bool) : RE := RE.rep false true p

/-- `SELECT\s+(.+?)\s+FROM` (IGNORECASE, DOTALL). -/
def reSelect : RE :=
  reSeqL [reStr "select", plusG pyWs, RE.grp (plusL dotAllP), plusG pyWs, reStr "from"]

/-- `WHERE\s+([^=<>!]+?)(?:\s*[=<>!]|\s+LIKE|\s+IN)` (IGNORECASE, DOTALL). -/
def reWhere : RE :=
  reSeqL [reStr "where", plusG pyWs,
    RE.grp (plusL (fun c => !("=<>!".data.contains c))),
    RE.alt (reSeqL [starG pyWs, RE.cls (fun c => "=<>!".data.contains c)])
      (RE.alt (reSeqL [plusG pyWs, reStr "like"]) (reSeqL [plusG pyWs, reStr "in"]))]

/-- `ORDER\s+BY\s+([^,\s]+)` (IGNORECASE, DOTALL). -/
def reOrderBy : RE :=
  reSeqL [reStr "order", plusG pyWs, reStr "by", plusG pyWs,
    RE.grp (plusG (fun c => !(c == ',') && !(pyWs c)))]

/-- `GROUP\s+BY\s+([^,\s]+)` (IGNORECASE, DOTALL). -/
def reGroupBy : RE :=
  reSeqL [reStr "group", plusG pyWs, reStr "by", plusG pyWs,
    RE.grp (plusG (fun c => !(c == ',') && !(pyWs c)))]

/-- `JOIN\s+\w+\s+ON\s+([^=\s]+)` (IGNORECASE, DOTALL). -/
def reJoin : RE :=
  reSeqL [reStr "join", plusG pyWs, plusG wordP, plusG pyWs, reStr "on", plusG pyWs,
    RE.grp (plusG (fun c => !(c == '=') && !(pyWs c)))]

/-- The `column_patterns` of `validate_sql_columns`, in source order. -/
def validate_patterns : List RE := [reSelect, reWhere, reOrderBy, reGroupBy, reJoin]

/-- `Unknown column '([^']+)'` (IGNORECASE). -/
def reUnknownCol : RE :=
  reSeqL [reStr "unknown column ", RE.lit aposC,
    RE.grp (plusG (fun c => !(c == aposC))), RE.lit aposC]

/-- `Column '([^']+)' doesn't exist` (IGNORECASE). -/
def reColDoesnt : RE :=
  reSeqL [reStr "column ", RE.lit aposC, RE.grp (plusG (fun c => !(c == aposC))),
    RE.lit aposC, reStr " doesn", RE.lit aposC, reStr "t exist"]

/-- `Invalid column name '([^']+)'` (IGNORECASE). -/
def reInvalidCol : RE :=
  reSeqL [reStr "invalid column name ", RE.lit aposC,
    RE.grp (plusG (fun c => !(c == aposC))), RE.lit aposC]

/-- `column "([^"]+)" does not exist` (IGNORECASE). -/
def reColDq : RE :=
  reSeqL [reStr "column ", RE.lit '"', RE.grp (plusG (fun c => !(c == '"'))),
    RE.lit '"', reStr " does not exist"]

/-- `no such column: ([^\s]+)` (IGNORECASE). -/
def reNoSuch : RE :=
  reSeqL [reStr "no such column: ", RE.grp (plusG (fun c => !(pyWs c)))]

/-- The `column_patterns` of `suggest_column_corrections`, in source order. -/
def column_patterns : List RE := [reUnknownCol, reColDoesnt, reInvalidCol, reColDq, reNoSuch]

/-- The three-line suggestion block `suggest_column_corrections` appends for
one unresolved column: header, up to three similarity-annotated bullets, and
a blank separator line. -/
def suggestBlock (column_name : String) (column_matches : List ColumnMatch) : List String :=
  ("Column '" ++ column_name ++ "' not found. Did you mean:")
    :: (((column_matches.take 3).map (fun m =>
        "  • " ++ m.table_name ++ "." ++ m.matched_column
          ++ " (similarity: " ++ formatQ1 m.similarity_score ++ "%)"))
      ++ [""])

/-- Processing of one captured identifier by `suggest_column_corrections`:
strip a leading table qualifier, look the name up (top 3), and append a
suggestion block when matches were found. -/
def suggestForName (schema_info : Schema) (suggestions : List String)
    (column_name : String) : List String :=
  let clean_column :=
    (((splitOnC '.' column_name.data).map (fun l => (⟨l⟩ : String)))).getLastD column_name
  let column_matches := find_column_matches clean_column schema_info 3
  if column_matches ≠ [] then suggestions ++ suggestBlock column_name column_matches
  else suggestions

def suggest_column_corrections (error_message : String) (schema_info : Schema) :
    List String :=
  column_patterns.foldl (fun suggestions pat =>
    (findAllS pat error_message).foldl (suggestForName schema_info) suggestions) []

/-- `sql_keywords` of `_is_sql_keyword_or_function`. -/
def sql_keywords : List String := [
  "select", "from", "where", "join", "inner", "left", "right", "outer",
  "on", "and", "or", "not", "in", "like", "between", "is", "null",
  "count", "sum", "avg", "max", "min", "distinct", "as", "order", "by",
  "group", "having", "limit", "offset", "union", "all", "case", "when",
  "then", "else", "end", "if", "exists", "any", "some", "*"]

/-- The numeric-literal test `^[\d\.\-\+]+$` of
`_is_sql_keyword_or_function`. -/
def isNumericLitL (l : List Char) : Bool :=
  !l.isEmpty && l.all (fun c => c.isDigit || c == '.' || c == '-' || c == '+')

/-- `_is_sql_keyword_or_function`: SQL keyword, function call (parentheses),
numeric literal, or quoted string literal. -/
def _is_sql_keyword_or_function (term : String) : Bool :=
  let term_lower := pyStrip (pyLower term)
  if sql_keywords.contains term_lower then true
  else if term.data.contains '(' || term.data.contains ')' then true
  else if isNumericLitL term_lower.data then true
  else if isPrefixL [aposC] term.data && isSuffixL [aposC] term.data then true
  else if isPrefixL ['"'] term.data && isSuffixL ['"'] term.data then true
  else false

/-- Does this whole tail match `\s*(ASC|DESC)\s*$` (IGNORECASE)? -/
def ascDescTail (l : List Char) : Bool :=
  let low := (l.dropWhile pyWs).map Char.toLower
  (isPrefixL "asc".data low && (low.drop 3).all pyWs) ||
  (isPrefixL "desc".data low && (low.drop 4).all pyWs)

/-- `re.sub(r'\s*(ASC|DESC)\s*$', '', col)`: remove a trailing ASC/DESC
(with surrounding whitespace) at the leftmost position where the anchored
pattern matches. -/
def stripAscDesc : List Char → List Char
  | [] => []
  | c :: rest => if ascDescTail (c :: rest) then [] else c :: stripAscDesc rest

/-- Python `str.strip(chars)`: drop the given characters from both ends. -/
def stripChars (cs : List Char) (s : List Char) : List Char :=
  ((s.dropWhile (fun c => cs.contains c)).reverse.dropWhile (fun c => cs.contains c)).reverse

/-- The cleanup `validate_sql_columns` applies to one comma-separated piece:
strip whitespace, drop a trailing ASC/DESC, strip backquotes and quotes. -/
def cleanSqlToken (col : String) : String :=
  ⟨stripChars [backquoteC, '"', aposC] (stripAscDesc (pyStrip col).data)⟩

/-- All cleaned-up potential column references `validate_sql_columns`
extracts from a SQL string, before the keyword filter: every regex capture,
split on commas, each piece stripped and cleaned. -/
def extractedRawTokens (sql_query : String) : List String :=
  ((validate_patterns.map (fun p => findAllS p sql_query)).flatten).flatMap (fun mtext =>
    ((splitOnC ',' mtext.data).map (fun l => pyStrip (⟨l⟩ : String))).map cleanSqlToken)

/-- The tokens `validate_sql_columns` actually checks: the extracted tokens
that are not SQL keywords, function calls or literals. -/
def sqlCandidateTokens (sql_query : String) : List String :=
  (extractedRawTokens sql_query).filter (fun c => !(_is_sql_keyword_or_function c))

/-- The case-insensitive valid-column set: `column` and `table.column` for
every schema entry. -/
def validColumnsOf (schema_info : Schema) : List String :=
  schema_info.flatMap (fun p => p.2.flatMap (fun ci =>
    [pyLower ci.column, pyLower p.1 ++ "." ++ pyLower ci.column]))

/-- The header line of one validation suggestion block. -/
def issueHeader (clean_col : String) : String :=
  "Potential issue with column '" ++ clean_col ++ "':"

/-- One validation step for a candidate token: when it is not a known
column and its best fuzzy match scores below 95, flag the query invalid and
append a suggestion block. -/
def validateStep (schema_info : Schema) (valid_columns : List String)
    (st : Bool × List String) (clean_col : String) : Bool × List String :=
  if !(valid_columns.contains (pyLower clean_col)) then
    let column_matches := find_column_matches clean_col schema_info 3
    match column_matches.head? with
    | some m0 =>
      if m0.similarity_score < 95 then
        (false, st.2 ++ (issueHeader clean_col ::
          (((column_matches.take 3).map (fun m =>
            "  • Did you mean " ++ m.table_name ++ "." ++ m.matched_column
              ++ "? (similarity: " ++ formatQ1 m.similarity_score ++ "%)"))
            ++ [""])))
      else st
    | none => st
  else st

/-- `validate_sql_columns`: extract candidate column references, skip SQL
keywords/functions/literals, and report fuzzy suggestions for tokens that
are not valid columns; returns (is_valid, suggestions). -/
def validate_sql_columns (sql_query : String) (schema_info : Schema) :
    Bool × List String :=
  (sqlCandidateTokens sql_query).foldl
    (validateStep schema_info (validColumnsOf schema_info)) (true, [])

/-- The `column_indicators` regex templates of
`_extract_potential_column_names` in `src/sql_generator.py`, in source
order. -/
def column_indicators : List RE := [
  reSeqL [reStr "by ", RE.grp (plusG wordP)],
  reSeqL [reStr "where ", RE.grp (plusG wordP)],
  reSeqL [reStr "select ", RE.grp (plusG wordP)],
  reSeqL [reStr "show ", RE.grp (plusG wordP)],
  reSeqL [reStr "find ", RE.grp (plusG wordP)],
  reSeqL [reStr "with ", RE.grp (plusG wordP)],
  reSeqL [RE.grp (plusG wordP), reStr " is"],
  reSeqL [RE.grp (plusG wordP), reStr " equals"],
  reSeqL [RE.grp (plusG wordP), reStr " contains"]]

/-- `common_fields` of `_extract_potential_column_names`. -/
def common_fields : List String := [
  "name", "email", "phone", "status", "type", "date", "id", "title",
  "description", "amount", "address", "city", "state", "country",
  "created", "modified", "updated", "deleted", "active", "inactive",
  "first_name", "last_name", "full_name", "company", "organization",
  "semester", "session", "program", "course", "instructor", "teacher",
  "student", "school", "grade", "subject", "availability", "schedule"]

/-- `stop_words` of `_extract_potential_column_names`. -/
def stop_words : List String := [
  "a", "an", "the", "is", "are", "was", "were", "be", "been",
  "have", "has", "had", "do", "does", "did", "will", "would",
  "could", "should", "may", "might", "can", "must", "shall",
  "to", "of", "in", "on", "at", "by", "for", "with", "from",
  "up", "about", "into", "through", "during", "before", "after",
  "above", "below", "between", "among", "and", "or", "but",
  "if", "then", "else", "when", "where", "why", "how", "what",
  "who", "which", "that", "this", "these", "those", "all",
  "any", "some", "many", "much", "more", "most", "other",
  "such", "no", "nor", "not", "only", "own", "same", "so",
  "than", "too", "very", "just", "now"]

/-- Insert strings into a duplicate-free list, keeping first occurrences
(models `set.update`; Python's set iteration order is unspecified, the
embedding fixes insertion order — every claim about this function is
order-independent). -/
def pySetAddAll (base : List String) (xs : List String) : List String :=
  xs.foldl (fun acc x => if acc.contains x then acc else acc ++ [x]) base

/-- `_extract_potential_column_names` of `src/sql_generator.py`: regex
captures over the lowercased text, plus every common field word occurring
in the text, filtered to tokens longer than two characters that are purely
alphabetic and not stop words. -/
def _extract_potential_column_names (natural_query : String) : List String :=
  let query_lower := pyLower natural_query
  let fromIndicators := ((column_indicators.map (fun p => findAllS p query_lower)).flatten)
  let withFields := common_fields.filter (fun f => pyIn f query_lower)
  let potential_columns := pySetAddAll (pySetAddAll [] fromIndicators) withFields
  potential_columns.filter (fun col =>
    2 < col.data.length && !(stop_words.contains col)
      && (!col.data.isEmpty && col.data.all Char.isAlpha))


/-! ### Claim C1: deduplication across phases -/

/-- A list of new entries extends a base list without ever introducing a
(matchedColumn, tableName) pair that is already present in the base or in
the earlier new entries. -/
def noNewDup : List ColumnMatch → List ColumnMatch → Prop
  | _, [] => True
  | base, m :: rest =>
    hasPair base m.matched_column m.table_name = false ∧ noNewDup (base ++ [m]) rest

/-- The single-claim fixture: one table `T` with one column
`email_address`. -/
def emailAddressSchema : Schema := [("T", [⟨"email_address"⟩])]

set_option maxRecDepth 20000 in
/-- C1 counterexample: for the term `email_address` (simultaneously an exact
column name and a configured alias of canonical `email`, which is a
substring of the column), the returned sequence contains the pair
(`email_address`, `T`) twice — once from the exact phase and once from the
alias phase, which performs no duplicate check against the exact phase. -/
theorem find_column_matches_duplicate_pair :
    ((find_column_matches "email_address" emailAddressSchema 5).map
      (fun m => (m.matched_column, m.table_name)))
      = [("email_address", "T"), ("email_address", "T")] ∧
    ¬ ((find_column_matches "email_address" emailAddressSchema 5).map
      (fun m => (m.matched_column, m.table_name))).Nodup := by
  constructor
  · decide
  · decide

theorem noNewDup_append {base a b : List ColumnMatch}
    (ha : noNewDup base a) (hb : noNewDup (base ++ a) b) : noNewDup base (a ++ b) := by
  induction a generalizing base with
  | nil => simpa using hb
  | cons m a' ih =>
    rcases ha with ⟨h1, h2⟩
    refine ⟨h1, ih h2 ?_⟩
    have : base ++ m :: a' = (base ++ [m]) ++ a' := by simp
    rwa [this] at hb

/-- A fold step that either leaves the accumulator unchanged or appends one
entry whose pair is not yet present extends any accumulator by a
`noNewDup` suffix. -/
theorem foldl_guarded {α : Type} (step : List ColumnMatch → α → List ColumnMatch)
    (l : List α)
    (hstep : ∀ acc x, step acc x = acc ∨
      ∃ m, step acc x = acc ++ [m] ∧ hasPair acc m.matched_column m.table_name = false) :
    ∀ acc, ∃ ns, l.foldl step acc = acc ++ ns ∧ noNewDup acc ns := by
  induction l with
  | nil => intro acc; exact ⟨[], by simp, trivial⟩
  | cons x xs ih =>
    intro acc
    rcases hstep acc x with h | ⟨m, hm, hp⟩
    · rcases ih acc with ⟨ns, h1, h2⟩
      exact ⟨ns, by simpa [h] using h1, h2⟩
    · rcases ih (acc ++ [m]) with ⟨ns, h1, h2⟩
      refine ⟨m :: ns, ?_, hp, h2⟩
      rw [List.foldl_cons, hm, h1]
      simp

theorem fuzzyStepA_shape (search_term : String) (all_columns : List CatCol)
    (acc : List ColumnMatch) (r : List Char × ℚ × Nat) :
    fuzzyStepA search_term all_columns acc r = acc ∨
      ∃ m, fuzzyStepA search_term all_columns acc r = acc ++ [m] ∧
        hasPair acc m.matched_column m.table_name = false ∧
        m.similarity_score = r.2.1 := by
  unfold fuzzyStepA
  split
  · split
    · split
      · left; rfl
      · right
        rename_i col _ hnp
        exact ⟨_, rfl, by simpa using hnp, rfl⟩
    · left; rfl
  · left; rfl

theorem fuzzyStepB_shape (search_term : String) (all_columns : List CatCol)
    (acc : List ColumnMatch) (r : List Char × ℚ × Nat) :
    fuzzyStepB search_term all_columns acc r = acc ∨
      ∃ m, fuzzyStepB search_term all_columns acc r = acc ++ [m] ∧
        hasPair acc m.matched_column m.table_name = false ∧
        m.similarity_score = r.2.1 := by
  unfold fuzzyStepB
  split
  · split
    · split
      · left; rfl
      · right
        rename_i col _ hnp
        exact ⟨_, rfl, by simpa using hnp, rfl⟩
    · left; rfl
  · left; rfl

theorem patternPartStep_shape (search_term search_lower : String)
    (acc : List ColumnMatch) (col : CatCol) :
    patternPartStep search_term search_lower acc col = acc ∨
      (patternPartStep search_term search_lower acc col = acc ++ [partMatchOf search_term col] ∧
        hasPair acc col.column col.table = false) := by
  unfold patternPartStep
  dsimp only
  split
  · split
    · left; rfl
    · right
      rename_i hnp
      exact ⟨rfl, by simpa using hnp⟩
  · left; rfl

/-- The fuzzy phase only appends, and each appended entry's pair is absent
from everything accumulated before it (exact, alias and earlier fuzzy
entries). -/
theorem fuzzyPhase_extends (search_term search_term_lower : String)
    (all_columns : List CatCol) (top_n : Nat) (acc : List ColumnMatch) :
    ∃ ns, fuzzyPhase search_term search_term_lower all_columns top_n acc = acc ++ ns ∧
      noNewDup acc ns := by
  unfold fuzzyPhase
  dsimp only
  split
  · rcases foldl_guarded (fuzzyStepA search_term all_columns) _
      (fun a x => (fuzzyStepA_shape search_term all_columns a x).imp id
        (fun h => h.imp (fun _ hm => ⟨hm.1, hm.2.1⟩))) acc with ⟨ns1, h1, h2⟩
    rw [h1]
    split
    · rcases foldl_guarded (fuzzyStepB search_term all_columns) _
        (fun a x => (fuzzyStepB_shape search_term all_columns a x).imp id
          (fun h => h.imp (fun _ hm => ⟨hm.1, hm.2.1⟩))) (acc ++ ns1) with ⟨ns2, hb1, hb2⟩
      refine ⟨ns1 ++ ns2, ?_, noNewDup_append h2 hb2⟩
      rw [hb1, List.append_assoc]
    · exact ⟨ns1, rfl, h2⟩
  · exact ⟨[], by simp, trivial⟩

/-- The pattern phase's partial-word loop only appends to the Salesforce
`__c` list, and each appended entry's pair is absent from the phase's own
earlier entries. -/
theorem patternPhase_extends (search_term : String) (all_columns : List CatCol) :
    ∃ ns, _find_pattern_matches search_term all_columns
        = sfSuffixMatches search_term all_columns ++ ns ∧
      noNewDup (sfSuffixMatches search_term all_columns) ns := by
  unfold _find_pattern_matches
  exact foldl_guarded _ _
    (fun a x => (patternPartStep_shape search_term (pyLower search_term) a x).imp id
      (fun h => ⟨partMatchOf search_term x, h.1, h.2⟩)) _

/-- C1 (amended): within the fuzzy phase, an entry is appended only when its
(matchedColumn, tableName) pair is absent from everything accumulated so far
(the exact- and alias-phase results and earlier fuzzy entries); within the
pattern phase, the partial-word step appends only pairs absent from the
pattern phase's own list.  (The exact, alias and Salesforce-`__c` steps
perform no deduplication, so the full result can still repeat a pair —
see the counterexample.) -/
theorem fuzzy_and_pattern_phase_dedup (search_term : String) (schema_info : Schema)
    (top_n : Nat) :
    (noNewDup
      (exactMatches search_term (pyStrip (pyLower search_term)) (buildCatalog schema_info)
        ++ aliasMatches search_term (pyStrip (pyLower search_term)) (buildCatalog schema_info))
      ((fuzzyPhase search_term (pyStrip (pyLower search_term)) (buildCatalog schema_info) top_n
          (exactMatches search_term (pyStrip (pyLower search_term)) (buildCatalog schema_info)
            ++ aliasMatches search_term (pyStrip (pyLower search_term)) (buildCatalog schema_info))).drop
        (exactMatches search_term (pyStrip (pyLower search_term)) (buildCatalog schema_info)
          ++ aliasMatches search_term (pyStrip (pyLower search_term)) (buildCatalog schema_info)).length))
    ∧ (noNewDup (sfSuffixMatches search_term (buildCatalog schema_info))
        ((_find_pattern_matches search_term (buildCatalog schema_info)).drop
          (sfSuffixMatches search_term (buildCatalog schema_info)).length)) := by
  constructor
  · rcases fuzzyPhase_extends search_term (pyStrip (pyLower search_term))
      (buildCatalog schema_info) top_n
      (exactMatches search_term (pyStrip (pyLower search_term)) (buildCatalog schema_info)
        ++ aliasMatches search_term (pyStrip (pyLower search_term)) (buildCatalog schema_info))
      with ⟨ns, h1, h2⟩
    rw [h1, List.drop_left]
    exact h2
  · rcases patternPhase_extends search_term (buildCatalog schema_info) with ⟨ns, h1, h2⟩
    rw [h1, List.drop_left]
    exact h2

/-! ### Claim C2: the end-to-end "mail" scenario -/

/-- The end-to-end fixture: `{"Contact": [{"column": "Email", ...}]}`. -/
def contactSchema : Schema := [("Contact", [⟨"Email"⟩])]

set_option maxRecDepth 40000 in
/-- C2 counterexample: for term `"mail"` against the Contact/Email schema
the matcher returns TWO matches, not one — the pattern phase's partial-word
step also fires (`"mail"` is a substring of the word part `"email"`) and its
duplicate check does not see the alias phase's entry. -/
theorem mail_scenario_two_matches :
    (find_column_matches "mail" contactSchema 5).length = 2 ∧
    ¬ (find_column_matches "mail" contactSchema 5).length = 1 := by
  constructor
  · decide
  · decide

set_option maxRecDepth 40000 in
/-- C2 (amended): for term `"mail"` with default topN the matcher returns
exactly two matches, both for (Email, Contact): first the alias match with
score 95.0, then a pattern match with score 80.0. -/
theorem mail_scenario_result :
    find_column_matches "mail" contactSchema 5 =
      [{ original_term := "mail", matched_column := "Email", table_name := "Contact",
         similarity_score := 95, match_type := "alias",
         suggestion := some "'mail' matched as alias for 'Email'" },
       { original_term := "mail", matched_column := "Email", table_name := "Contact",
         similarity_score := 80, match_type := "pattern",
         suggestion := some "Partial match: 'mail' found in 'Email'" }] := by
  decide

/-! ### Claim C4: error-message extraction for "Sttaus" -/

/-- The error-resolver fixture: table `Session` with column `Status`. -/
def sessionSchema : Schema := [("Session", [⟨"Status"⟩])]

/-- The fixed error message of the scenario. -/
def sttausMsg : String := "Unknown column 'Sttaus' in 'field list'"

set_option maxRecDepth 40000 in
/-- C4 counterexample: the FIRST line of the returned sequence quotes the
unknown identifier `Sttaus`, not the corrected name `Status`: the string
`Status` does not occur in it (in either case). -/
theorem sttaus_first_line_not_status :
    (suggest_column_corrections sttausMsg sessionSchema).head? =
      some "Column 'Sttaus' not found. Did you mean:" ∧
    pyIn "Status" "Column 'Sttaus' not found. Did you mean:" = false ∧
    pyIn "status" (pyLower "Column 'Sttaus' not found. Did you mean:") = false := by
  refine ⟨by decide, by decide, by decide⟩

set_option maxRecDepth 40000 in
/-- C4 (amended): the resolver returns a non-empty sequence whose first line
references the captured unknown column `Sttaus`, followed by a
similarity-annotated line reporting `Session.Status` (at 83.3%), and a blank
separator. -/
theorem sttaus_suggestions :
    suggest_column_corrections sttausMsg sessionSchema =
      ["Column 'Sttaus' not found. Did you mean:",
       "  • Session.Status (similarity: 83.3%)",
       ""] := by
  decide

/-! ### Claim C3: exact-match precedence -/

theorem foldl_preserve {α : Type} (P : ColumnMatch → Prop)
    (step : List ColumnMatch → α → List ColumnMatch) :
    ∀ (l : List α) (acc : List ColumnMatch),
      (∀ acc x, x ∈ l → (∀ m ∈ acc, P m) → ∀ m ∈ step acc x, P m) →
      (∀ m ∈ acc, P m) → ∀ m ∈ l.foldl step acc, P m := by
  intro l
  induction l with
  | nil =>
    intro acc _ hacc m hm
    exact hacc m (by simpa using hm)
  | cons x xs ih =>
    intro acc hstep hacc m hm
    rw [List.foldl_cons] at hm
    exact ih (step acc x) (fun a y hy => hstep a y (List.mem_cons_of_mem _ hy))
      (hstep acc x (List.mem_cons_self _ _) hacc) m hm

theorem exactMatches_mem {search_term search_term_lower : String} {all_columns : List CatCol}
    {m : ColumnMatch} (h : m ∈ exactMatches search_term search_term_lower all_columns) :
    m.similarity_score = 100 ∧ m.match_type = "exact" := by
  unfold exactMatches at h
  rcases List.mem_filterMap.mp h with ⟨col, _, hcol⟩
  split at hcol
  · injection hcol with h'
    subst h'
    exact ⟨rfl, rfl⟩
  · exact absurd hcol (by simp)

theorem aliasMatches_mem {search_term search_term_lower : String} {all_columns : List CatCol}
    {m : ColumnMatch} (h : m ∈ aliasMatches search_term search_term_lower all_columns) :
    m.similarity_score = 95 := by
  unfold aliasMatches at h
  split at h
  · simp at h
  · rcases List.mem_filterMap.mp h with ⟨col, _, hcol⟩
    split at hcol
    · injection hcol with h'
      subst h'
      rfl
    · exact absurd hcol (by simp)

theorem sfSuffixMatches_mem {search_term : String} {all_columns : List CatCol}
    {m : ColumnMatch} (h : m ∈ sfSuffixMatches search_term all_columns) :
    m.similarity_score = 90 ∧ m.match_type = "pattern" := by
  unfold sfSuffixMatches at h
  split at h
  · rcases List.mem_filterMap.mp h with ⟨col, _, hcol⟩
    split at hcol
    · injection hcol with h'
      subst h'
      exact ⟨rfl, rfl⟩
    · exact absurd hcol (by simp)
  · simp at h

theorem pattern_matches_mem {search_term : String} {all_columns : List CatCol}
    {m : ColumnMatch} (h : m ∈ _find_pattern_matches search_term all_columns) :
    m.similarity_score ≤ 100 := by
  unfold _find_pattern_matches at h
  refine foldl_preserve (fun m => m.similarity_score ≤ 100) _ _ _ ?_ ?_ m h
  · intro acc col _ hacc m' hm'
    rcases patternPartStep_shape search_term (pyLower search_term) acc col with hs | ⟨hs, _⟩
    · exact hacc m' (hs ▸ hm')
    · rw [hs] at hm'
      rcases List.mem_append.mp hm' with h' | h'
      · exact hacc m' h'
      · have : m' = partMatchOf search_term col := by simpa using h'
        subst this
        show (80 : ℚ) ≤ 100
        norm_num
  · intro m' hm'
    have := (sfSuffixMatches_mem hm').1
    rw [this]
    norm_num

theorem fuzzyPhase_score_le (search_term search_term_lower : String)
    (all_columns : List CatCol) (top_n : Nat) (acc : List ColumnMatch)
    (hacc : ∀ m ∈ acc, m.similarity_score ≤ 100) :
    ∀ m ∈ fuzzyPhase search_term search_term_lower all_columns top_n acc,
      m.similarity_score ≤ 100 := by
  unfold fuzzyPhase
  dsimp only
  split
  · have hA : ∀ m ∈ (processExtract WRatio search_term_lower.data
        (all_columns.map (fun c => c.column_lower.data)) (top_n * 3)).foldl
          (fuzzyStepA search_term all_columns) acc, m.similarity_score ≤ 100 := by
      refine foldl_preserve _ _ _ _ ?_ hacc
      intro a x hx ha m' hm'
      rcases fuzzyStepA_shape search_term all_columns a x with hs | ⟨m0, hs, _, hscore⟩
      · exact ha m' (hs ▸ hm')
      · rw [hs] at hm'
        rcases List.mem_append.mp hm' with h' | h'
        · exact ha m' h'
        · have : m' = m0 := by simpa using h'
          subst this
          rw [hscore]
          exact processExtract_score_le (fun a b => WRatio_le_100 a b) x hx
    split
    · refine foldl_preserve _ _ _ _ ?_ hA
      intro a x hx ha m' hm'
      rcases fuzzyStepB_shape search_term all_columns a x with hs | ⟨m0, hs, _, hscore⟩
      · exact ha m' (hs ▸ hm')
      · rw [hs] at hm'
        rcases List.mem_append.mp hm' with h' | h'
        · exact ha m' h'
        · have : m' = m0 := by simpa using h'
          subst this
          rw [hscore]
          exact processExtract_score_le (fun a b => partial_ratio_le_100 a b) x hx
    · exact hA
  · exact hacc

theorem matchesBeforeSort_score_le (search_term : String) (schema_info : Schema)
    (top_n : Nat) :
    ∀ m ∈ matchesBeforeSort search_term schema_info top_n, m.similarity_score ≤ 100 := by
  unfold matchesBeforeSort
  dsimp only
  have hbase : ∀ m ∈ exactMatches search_term (pyStrip (pyLower search_term))
        (buildCatalog schema_info)
      ++ aliasMatches search_term (pyStrip (pyLower search_term)) (buildCatalog schema_info),
      m.similarity_score ≤ 100 := by
    intro m hm
    rcases List.mem_append.mp hm with h | h
    · rw [(exactMatches_mem h).1]
    · rw [aliasMatches_mem h]
      norm_num
  split
  · intro m hm
    rcases List.mem_append.mp hm with h | h
    · exact fuzzyPhase_score_le _ _ _ _ _ hbase m h
    · exact pattern_matches_mem h
  · exact fuzzyPhase_score_le _ _ _ _ _ hbase

theorem matchesBeforeSort_exact_prefix (search_term : String) (schema_info : Schema)
    (top_n : Nat) :
    ∃ rest, matchesBeforeSort search_term schema_info top_n
      = exactMatches search_term (pyStrip (pyLower search_term)) (buildCatalog schema_info)
        ++ rest := by
  unfold matchesBeforeSort
  dsimp only
  rcases fuzzyPhase_extends search_term (pyStrip (pyLower search_term))
    (buildCatalog schema_info) top_n
    (exactMatches search_term (pyStrip (pyLower search_term)) (buildCatalog schema_info)
      ++ aliasMatches search_term (pyStrip (pyLower search_term)) (buildCatalog schema_info))
    with ⟨ns, h1, _⟩
  split
  · exact ⟨aliasMatches search_term (pyStrip (pyLower search_term)) (buildCatalog schema_info)
      ++ ns ++ _find_pattern_matches search_term (buildCatalog schema_info),
      by rw [h1]; simp [List.append_assoc]⟩
  · exact ⟨aliasMatches search_term (pyStrip (pyLower search_term)) (buildCatalog schema_info)
      ++ ns, by rw [h1]; simp [List.append_assoc]⟩

theorem insertionSort_cons_of_max (a : ColumnMatch) (l : List ColumnMatch)
    (h : ∀ x ∈ l, x.similarity_score ≤ a.similarity_score) :
    List.insertionSort scoreGe (a :: l) = a :: List.insertionSort scoreGe l := by
  show List.orderedInsert scoreGe a (List.insertionSort scoreGe l)
    = a :: List.insertionSort scoreGe l
  cases hs : List.insertionSort scoreGe l with
  | nil => rfl
  | cons b t =>
    have hb : b ∈ l := by
      have : b ∈ List.insertionSort scoreGe l := by rw [hs]; exact List.mem_cons_self _ _
      exact (List.perm_insertionSort scoreGe l).mem_iff.mp this
    have : scoreGe a b := h b hb
    simp [List.orderedInsert, if_pos this]

/-- C3: for every term whose lowercased trimmed form equals the lowercased
name of at least one catalog column, and every topN at least 1, the first
returned match has score 100.0 and type "exact", regardless of what the
fuzzy passes contribute (every other candidate scores at most 100 and the
final stable sort keeps the exact-phase entry, inserted first, in front). -/
theorem exact_match_precedence (search_term : String) (schema_info : Schema) (top_n : Nat)
    (h1 : 1 ≤ top_n)
    (h2 : ∃ col ∈ buildCatalog schema_info,
      col.column_lower = pyStrip (pyLower search_term)) :
    ∃ m, (find_column_matches search_term schema_info top_n).head? = some m ∧
      m.similarity_score = 100 ∧ m.match_type = "exact" := by
  obtain ⟨col, hc, he⟩ := h2
  have hmem : ColumnMatch.mk search_term col.column col.table 100 "exact" none
      ∈ exactMatches search_term (pyStrip (pyLower search_term)) (buildCatalog schema_info) := by
    unfold exactMatches
    exact List.mem_filterMap.mpr ⟨col, hc, by rw [if_pos he]⟩
  have hne : exactMatches search_term (pyStrip (pyLower search_term))
      (buildCatalog schema_info) ≠ [] := List.ne_nil_of_mem hmem
  rcases hE : exactMatches search_term (pyStrip (pyLower search_term))
      (buildCatalog schema_info) with _ | ⟨e0, etail⟩
  · exact absurd hE hne
  rcases matchesBeforeSort_exact_prefix search_term schema_info top_n with ⟨rest, hsplit⟩
  rw [hE] at hsplit
  have he0 : e0.similarity_score = 100 ∧ e0.match_type = "exact" :=
    exactMatches_mem (by rw [hE]; exact List.mem_cons_self _ _)
  have hbound : ∀ x ∈ etail ++ rest, x.similarity_score ≤ e0.similarity_score := by
    intro x hx
    rw [he0.1]
    apply matchesBeforeSort_score_le search_term schema_info top_n
    rw [hsplit]
    simpa using Or.inr (by simpa using hx)
  obtain ⟨k, rfl⟩ : ∃ k, top_n = k + 1 :=
    ⟨top_n - 1, (Nat.succ_pred_eq_of_pos h1).symm⟩
  refine ⟨e0, ?_, he0.1, he0.2⟩
  unfold find_column_matches
  rw [hsplit]
  have : (e0 :: etail) ++ rest = e0 :: (etail ++ rest) := by simp
  rw [this, insertionSort_cons_of_max e0 (etail ++ rest) hbound, List.take_succ_cons]
  rfl

/-- C3 witness: term "STATUS" against a schema holding Session.Status. -/
theorem exact_match_precedence_witness :
    ((1 ≤ 5) ∧ ∃ col ∈ buildCatalog [("Session", [⟨"Status"⟩])],
        col.column_lower = pyStrip (pyLower "STATUS")) ∧
    ∃ m, (find_column_matches "STATUS" [("Session", [⟨"Status"⟩])] 5).head? = some m ∧
      m.similarity_score = 100 ∧ m.match_type = "exact" :=
  ⟨⟨by norm_num, by decide⟩,
    exact_match_precedence "STATUS" [("Session", [⟨"Status"⟩])] 5 (by norm_num) (by decide)⟩

/-! ### Claim C5: length bound, score ordering, stability -/

theorem filter_orderedInsert (s : ℚ) (a : ColumnMatch) (l : List ColumnMatch) :
    (List.orderedInsert scoreGe a l).filter (fun m => decide (m.similarity_score = s))
      = if a.similarity_score = s
        then a :: l.filter (fun m => decide (m.similarity_score = s))
        else l.filter (fun m => decide (m.similarity_score = s)) := by
  induction l with
  | nil =>
    by_cases h : a.similarity_score = s <;>
      simp [List.orderedInsert, List.filter, h]
  | cons b t ih =>
    by_cases hab : scoreGe a b
    · rw [List.orderedInsert, if_pos hab]
      by_cases h : a.similarity_score = s <;>
        simp [List.filter_cons, h]
    · rw [List.orderedInsert, if_neg hab]
      by_cases h : a.similarity_score = s
      · have hb : ¬ (b.similarity_score = s) := by
          intro hb
          exact hab (by unfold scoreGe; rw [hb, h])
        rw [if_pos h]
        simp [List.filter_cons, hb, ih, h]
      · rw [if_neg h]
        simp [List.filter_cons, ih, h]

theorem filter_insertionSort (s : ℚ) (l : List ColumnMatch) :
    (List.insertionSort scoreGe l).filter (fun m => decide (m.similarity_score = s))
      = l.filter (fun m => decide (m.similarity_score = s)) := by
  induction l with
  | nil => rfl
  | cons a t ih =>
    show (List.orderedInsert scoreGe a (List.insertionSort scoreGe t)).filter _ = _
    rw [filter_orderedInsert, ih]
    by_cases h : a.similarity_score = s
    · rw [if_pos h, List.filter_cons, if_pos (by simpa using h)]
    · rw [if_neg h, List.filter_cons, if_neg (by simpa using h)]

/-- C5: the returned sequence has length at most topN, is sorted by
similarity score in non-increasing order, and equal-score entries keep
their discovery order across the four phases: for every score value, the
returned entries with that score form a prefix of the discovery-ordered
(pre-sort) entries with that score (Python's sort is stable and the final
truncation only removes a suffix). -/
theorem find_column_matches_ordering (search_term : String) (schema_info : Schema)
    (top_n : Nat) :
    (find_column_matches search_term schema_info top_n).length ≤ top_n
  ∧ List.Sorted scoreGe (find_column_matches search_term schema_info top_n)
  ∧ ∀ s : ℚ, (find_column_matches search_term schema_info top_n).filter
        (fun m => decide (m.similarity_score = s))
      <+: (matchesBeforeSort search_term schema_info top_n).filter
        (fun m => decide (m.similarity_score = s)) := by
  refine ⟨?_, ?_, ?_⟩
  · unfold find_column_matches
    simpa using Nat.min_le_left _ _
  · unfold find_column_matches
    exact List.Pairwise.sublist (List.take_sublist _ _)
      (List.sorted_insertionSort scoreGe _)
  · intro s
    unfold find_column_matches
    rw [← filter_insertionSort s (matchesBeforeSort search_term schema_info top_n)]
    refine ⟨(List.insertionSort scoreGe
        (matchesBeforeSort search_term schema_info top_n)).drop top_n |>.filter
          (fun m => decide (m.similarity_score = s)), ?_⟩
    rw [← List.filter_append, List.take_append_drop]

/-! ### Claim C6: SQL keywords are never treated as column candidates -/

theorem strExt {a b : String} (h : a.data = b.data) : a = b := by
  cases a
  cases b
  exact congrArg String.mk h

theorem head?_append_left {l1 l2 : List Char} {c : Char} (h : l1.head? = some c) :
    (l1 ++ l2).head? = some c := by
  cases l1 with
  | nil => simp at h
  | cons x xs => simpa using h

theorem issueHeader_head (t : String) : (issueHeader t).data.head? = some 'P' := by
  unfold issueHeader
  rw [String.data_append]
  exact head?_append_left (by rw [String.data_append]; exact head?_append_left rfl)

theorem issueHeader_inj {a b : String} (h : issueHeader a = issueHeader b) : a = b := by
  unfold issueHeader at h
  have h1 := congrArg String.data h
  repeat rw [String.data_append] at h1
  have h2 := List.append_cancel_left (List.append_cancel_right h1)
  exact strExt h2

theorem not_kw_of_filter {t : String} (h : _is_sql_keyword_or_function t = false) :
    sql_keywords.contains (pyStrip (pyLower t)) = false := by
  by_cases hc : sql_keywords.contains (pyStrip (pyLower t)) = true
  · exfalso
    unfold _is_sql_keyword_or_function at h
    rw [if_pos hc] at h
    exact absurd h (by simp)
  · simpa using hc

theorem validate_lines_inv (schema_info : Schema) (valid_columns : List String) :
    ∀ (l : List String) (st : Bool × List String),
      (∀ c ∈ l, _is_sql_keyword_or_function c = false) →
      (∀ line ∈ st.2, ∀ t, line = issueHeader t → _is_sql_keyword_or_function t = false) →
      ∀ line ∈ (l.foldl (validateStep schema_info valid_columns) st).2, ∀ t,
        line = issueHeader t → _is_sql_keyword_or_function t = false := by
  intro l
  induction l with
  | nil =>
    intro st _ hst line hline
    exact hst line (by simpa using hline)
  | cons c cs ih =>
    intro st hl hst
    rw [List.foldl_cons]
    refine ih _ (fun x hx => hl x (List.mem_cons_of_mem _ hx)) ?_
    intro line hline t ht
    unfold validateStep at hline
    dsimp only at hline
    split at hline
    · split at hline
      · split at hline
        · dsimp only at hline
          rcases List.mem_append.mp hline with hold | hnew
          · exact hst line hold t ht
          · rcases List.mem_cons.mp hnew with hhead | htail
            · have : c = t := issueHeader_inj (hhead ▸ ht.symm ▸ rfl)
              subst this
              exact hl c (List.mem_cons_self _ _)
            · exfalso
              rcases List.mem_append.mp htail with hb | hlast
              · rcases List.mem_map.mp hb with ⟨m, _, hm⟩
                have hsp : line.data.head? = some ' ' := by
                  rw [← hm]
                  repeat rw [String.data_append]
                  exact head?_append_left (head?_append_left (head?_append_left
                    (head?_append_left (head?_append_left (head?_append_left rfl)))))
                rw [ht] at hsp
                rw [issueHeader_head t] at hsp
                exact absurd (Option.some.inj hsp) (by decide)
              · have hempty : line = "" := by simpa using hlast
                rw [hempty] at ht
                have := issueHeader_head t
                rw [← ht] at this
                exact absurd this (by decide)
        · exact hst line hline t ht
      · exact hst line hline t ht
    · exact hst line hline t ht

/-- C6: no token of the fixed SQL-keyword set is ever treated as a column
candidate by `validate_sql_columns`: every token that reaches the
column lookup has a lowercased trimmed form outside the keyword set, and no
returned "Potential issue" suggestion line names a keyword as its
subject. -/
theorem sql_keyword_rejection (sql_query : String) (schema_info : Schema) (t : String)
    (h : t ∈ sqlCandidateTokens sql_query ∨
      ∃ line ∈ (validate_sql_columns sql_query schema_info).2, line = issueHeader t) :
    sql_keywords.contains (pyStrip (pyLower t)) = false := by
  rcases h with h | ⟨line, hline, hheader⟩
  · unfold sqlCandidateTokens at h
    have := (List.mem_filter.mp h).2
    exact not_kw_of_filter (by simpa using this)
  · refine not_kw_of_filter ?_
    refine validate_lines_inv schema_info (validColumnsOf schema_info) _ (true, []) ?_ ?_
      line hline t hheader
    · intro c hc
      unfold sqlCandidateTokens at hc
      have := (List.mem_filter.mp hc).2
      simpa using this
    · intro line' hline'
      simp at hline'

set_option maxRecDepth 40000 in
/-- C6 witness: the misspelled token `Sttaus` is a candidate extracted from
a SELECT clause, and (by the theorem) is not a SQL keyword. -/
theorem sql_keyword_rejection_witness :
    ("Sttaus" ∈ sqlCandidateTokens "SELECT Sttaus FROM Session") ∧
    sql_keywords.contains (pyStrip (pyLower "Sttaus")) = false :=
  ⟨by decide, sql_keyword_rejection "SELECT Sttaus FROM Session" [("Session", [⟨"Status"⟩])]
    "Sttaus" (Or.inl (by decide))⟩

/-! ### Claim C7: natural-language token extraction filter -/

/-- C7: every token produced by `_extract_potential_column_names` is longer
than two characters, purely alphabetic, and not a stop word. -/
theorem extract_tokens_filtered (natural_query : String) (t : String)
    (h : t ∈ _extract_potential_column_names natural_query) :
    2 < t.data.length ∧ stop_words.contains t = false ∧
      t.data ≠ [] ∧ t.data.all Char.isAlpha = true := by
  unfold _extract_potential_column_names at h
  have hp := (List.mem_filter.mp h).2
  simp only [Bool.and_eq_true, decide_eq_true_eq, Bool.not_eq_true'] at hp
  refine ⟨hp.1.1, hp.1.2, ?_, hp.2.2⟩
  intro hdata
  have hemp := hp.2.1
  rw [hdata] at hemp
  exact absurd hemp (by decide)

/-- C7 witness: the token "email" extracted from "show email". -/
theorem extract_tokens_filtered_witness :
    ("email" ∈ _extract_potential_column_names "show email") ∧
    (2 < "email".data.length ∧ stop_words.contains "email" = false ∧
      "email".data ≠ [] ∧ "email".data.all Char.isAlpha = true) :=
  ⟨by decide, extract_tokens_filtered "show email" "email" (by decide)⟩

/-! ### Claim C8: messages matching no pattern yield the empty sequence -/

theorem suggest_fold_id (error_message : String) (schema_info : Schema) :
    ∀ (l : List RE), (∀ p ∈ l, findAllS p error_message = []) →
      ∀ acc, l.foldl (fun suggestions pat =>
        (findAllS pat error_message).foldl (suggestForName schema_info) suggestions) acc
        = acc := by
  intro l
  induction l with
  | nil => intro _ acc; rfl
  | cons p ps ih =>
    intro h acc
    rw [List.foldl_cons, h p (List.mem_cons_self _ _)]
    exact ih (fun q hq => h q (List.mem_cons_of_mem _ hq)) acc

/-- C8: an error message in which none of the five known "unknown column"
patterns finds a match produces the empty suggestion sequence (and, the
function being total, no exception). -/
theorem unmatched_error_message_empty (error_message : String) (schema_info : Schema)
    (h : ∀ p ∈ column_patterns, findAllS p error_message = []) :
    suggest_column_corrections error_message schema_info = [] := by
  unfold suggest_column_corrections
  exact suggest_fold_id error_message schema_info column_patterns h []

/-- C8 witness: a connection-failure message matches no pattern and yields
no suggestions. -/
theorem unmatched_error_message_empty_witness :
    (∀ p ∈ column_patterns, findAllS p "connection to server timed out" = []) ∧
    suggest_column_corrections "connection to server timed out" [("T", [⟨"A"⟩])] = [] :=
  ⟨by decide, unmatched_error_message_empty "connection to server timed out"
    [("T", [⟨"A"⟩])] (by decide)⟩

/-! ### Claim C10: validity flag iff non-empty suggestions -/

theorem validateStep_shape (schema_info : Schema) (valid_columns : List String)
    (st : Bool × List String) (c : String) :
    validateStep schema_info valid_columns st c = st ∨
      ∃ tail, validateStep schema_info valid_columns st c
        = (false, st.2 ++ (issueHeader c :: tail)) := by
  unfold validateStep
  dsimp only
  split
  · split
    · split
      · right; exact ⟨_, rfl⟩
      · left; rfl
    · left; rfl
  · left; rfl

theorem validate_fold_inv (schema_info : Schema) (valid_columns : List String) :
    ∀ (l : List String) (st : Bool × List String),
      (st.1 = true ↔ st.2 = []) →
      ((l.foldl (validateStep schema_info valid_columns) st).1 = true ↔
        (l.foldl (validateStep schema_info valid_columns) st).2 = []) := by
  intro l
  induction l with
  | nil => intro st h; simpa using h
  | cons c cs ih =>
    intro st h
    rw [List.foldl_cons]
    rcases validateStep_shape schema_info valid_columns st c with hs | ⟨tail, hs⟩
    · rw [hs]; exact ih st h
    · rw [hs]
      refine ih _ ?_
      constructor
      · intro hf; exact absurd hf (by simp)
      · intro he; exact absurd he (by simp)

/-- C10: `validate_sql_columns` reports is_valid = False exactly when the
suggestion list is non-empty; moreover, a candidate token that is not in
the valid-column set but yields no fuzzy match at all leaves the
(is_valid, suggestions) state unchanged — so such tokens alone leave the
query flagged valid with no suggestions. -/
theorem validity_iff_suggestions (sql_query : String) (schema_info : Schema) :
    ((validate_sql_columns sql_query schema_info).1 = false ↔
      (validate_sql_columns sql_query schema_info).2 ≠ []) ∧
    ∀ (st : Bool × List String) (clean_col : String),
      (validColumnsOf schema_info).contains (pyLower clean_col) = false →
      find_column_matches clean_col schema_info 3 = [] →
      validateStep schema_info (validColumnsOf schema_info) st clean_col = st := by
  constructor
  · have h := validate_fold_inv schema_info (validColumnsOf schema_info)
      (sqlCandidateTokens sql_query) (true, []) (by simp)
    unfold validate_sql_columns
    rw [Bool.eq_false_iff]
    exact not_congr h
  · intro st clean_col hvc hfm
    unfold validateStep
    dsimp only
    rw [hvc, hfm]
    rfl

set_option maxRecDepth 20000 in
theorem validity_iff_suggestions_witness :
    (validColumnsOf [("T", [(⟨"A"⟩ : ColInfo)])]).contains (pyLower "zzz") = false ∧
    find_column_matches "zzz" [("T", [(⟨"A"⟩ : ColInfo)])] 3 = [] ∧
    validateStep [("T", [(⟨"A"⟩ : ColInfo)])] (validColumnsOf [("T", [(⟨"A"⟩ : ColInfo)])])
      (true, []) "zzz" = (true, []) :=
  ⟨by decide, by decide,
    (validity_iff_suggestions "" [("T", [(⟨"A"⟩ : ColInfo)])]).2 (true, []) "zzz"
      (by decide) (by decide)⟩

/-! ### Claim C9: behaviour of the empty search term -/

/-- The pattern-phase fixture for the counterexample: one column literally
named `__c`. -/
def underscoreSchema : Schema := [("T", [⟨"__c"⟩])]

set_option maxRecDepth 40000 in
/-- C9 counterexample: for the empty term, a column named exactly `__c`
(which does contain a non-underscore character) is matched by the
Salesforce-suffix step at score 90, and the pattern phase emits NO score-80
match for it (the partial-word step's duplicate check suppresses it), so
the claimed "score-80.0 match for every such column" fails. -/
theorem empty_term_dunder_c_no_80 :
    _find_pattern_matches "" (buildCatalog underscoreSchema) =
      [{ original_term := "", matched_column := "__c", table_name := "T",
         similarity_score := 90, match_type := "pattern",
         suggestion := some "Salesforce custom field: '' -> '__c'" }] ∧
    (_find_pattern_matches "" (buildCatalog underscoreSchema)).all
      (fun m => !(m.similarity_score == 80)) = true ∧
    find_column_matches "" underscoreSchema 5 =
      [{ original_term := "", matched_column := "__c", table_name := "T",
         similarity_score := 90, match_type := "pattern",
         suggestion := some "Salesforce custom field: '' -> '__c'" }] := by
  refine ⟨by decide, by decide, by decide⟩

theorem buildCatalog_column_lower {schema_info : Schema} {col : CatCol}
    (h : col ∈ buildCatalog schema_info) : col.column_lower = pyLower col.column := by
  unfold buildCatalog at h
  rcases List.mem_flatMap.mp h with ⟨p, _, hp⟩
  rcases List.mem_map.mp hp with ⟨ci, _, hci⟩
  rw [← hci]

theorem replaceL_no_underscore :
    ∀ (fuel : Nat) (s : List Char), s.length ≤ fuel →
      ∀ c ∈ replaceLAux "_".data " ".data fuel s, c ≠ '_' := by
  intro fuel
  induction fuel with
  | zero =>
    intro s hs c hc
    have : s = [] := List.eq_nil_of_length_eq_zero (Nat.le_zero.mp hs)
    subst this
    simp [replaceLAux] at hc
  | succ n ih =>
    intro s hs c hc
    simp only [replaceLAux] at hc
    split at hc
    · rcases List.mem_append.mp hc with h1 | h1
      · have : c = ' ' := by simpa using h1
        subst this
        decide
      · refine ih (s.drop 1) ?_ c ?_
        · have := hs
          cases s with
          | nil => simp
          | cons x xs => simpa using Nat.le_of_succ_le_succ hs
        · simpa using h1
    · rename_i hcond
      cases s with
      | nil => simp at hc
      | cons x xs =>
        have hx : x ≠ '_' := by
          intro hx
          subst hx
          exact hcond ⟨by decide, by simp [isPrefixL]⟩
        rcases List.mem_cons.mp hc with h1 | h1
        · subst h1; exact hx
        · exact ih xs (Nat.le_of_succ_le_succ hs) c h1

theorem replaceL_mem_of_ne :
    ∀ (fuel : Nat) (s : List Char), s.length ≤ fuel →
      ∀ c ∈ s, c ≠ '_' → c ∈ replaceLAux "_".data " ".data fuel s := by
  intro fuel
  induction fuel with
  | zero =>
    intro s hs c hc _
    have : s = [] := List.eq_nil_of_length_eq_zero (Nat.le_zero.mp hs)
    subst this
    simp at hc
  | succ n ih =>
    intro s hs c hc hne
    simp only [replaceLAux]
    split
    · rename_i hcond
      refine List.mem_append.mpr (Or.inr ?_)
      refine ih (s.drop 1) ?_ c ?_ hne
      · cases s with
        | nil => simp
        | cons x xs => simpa using Nat.le_of_succ_le_succ hs
      · cases s with
        | nil => simp at hc
        | cons x xs =>
          have hx : x = '_' := by
            have := hcond.2
            cases hbe : ('_' == x) with
            | false => simp [isPrefixL, hbe] at this
            | true => exact (beq_iff_eq.mp hbe).symm
          rcases List.mem_cons.mp hc with h1 | h1
          · exact absurd (h1.trans hx) hne
          · simpa using h1
    · cases s with
      | nil => simp at hc
      | cons x xs =>
        rcases List.mem_cons.mp hc with h1 | h1
        · subst h1; exact List.mem_cons_self _ _
        · exact List.mem_cons_of_mem _ (ih xs (Nat.le_of_succ_le_succ hs) c h1 hne)

theorem replaceL_dunder_noop :
    ∀ (fuel : Nat) (s : List Char), (∀ c ∈ s, c ≠ '_') →
      replaceLAux "__c".data [] fuel s = s := by
  intro fuel
  induction fuel with
  | zero => intro s _; rfl
  | succ n ih =>
    intro s h
    simp only [replaceLAux]
    rw [if_neg ?_]
    · cases s with
      | nil => rfl
      | cons x xs =>
        have hxs := ih xs (fun c hc => h c (List.mem_cons_of_mem _ hc))
        show x :: replaceLAux "__c".data [] n xs = x :: xs
        rw [hxs]
    · rintro ⟨_, hpre⟩
      cases s with
      | nil => simp [isPrefixL] at hpre
      | cons x xs =>
        have hx : x ≠ '_' := h x (List.mem_cons_self _ _)
        cases hbe : ('_' == x) with
        | false => simp [isPrefixL, hbe] at hpre
        | true => exact hx (beq_iff_eq.mp hbe).symm

theorem splitWsAux_ne_nil :
    ∀ (s cur : List Char), ((∃ c ∈ s, pyWs c = false) ∨ cur ≠ []) →
      splitWsAux s cur ≠ [] := by
  intro s
  induction s with
  | nil =>
    intro cur h
    rcases h with ⟨c, hc, _⟩ | h
    · simp at hc
    · rw [splitWsAux, if_neg h]
      simp
  | cons d rest ih =>
    intro cur h
    rw [splitWsAux]
    split
    · rename_i hd
      have hrest : (∃ c ∈ rest, pyWs c = false) ∨ cur ≠ [] := by
        rcases h with ⟨c, hc, hws⟩ | hcur
        · rcases List.mem_cons.mp hc with h1 | h1
          · subst h1; rw [hd] at hws; exact absurd hws (by decide)
          · exact Or.inl ⟨c, h1, hws⟩
        · exact Or.inr hcur
      split
      · rename_i hcur
        refine ih [] ?_
        rcases hrest with hr | hcur'
        · exact Or.inl hr
        · exact absurd hcur hcur'
      · simp
    · exact ih (d :: cur) (Or.inr (by simp))

theorem isInfixL_nil_left (b : List Char) : isInfixL [] b = true := by
  cases b <;> simp [isInfixL, isPrefixL]

theorem col_parts_ne_nil {col : CatCol}
    (hq : ∃ c ∈ col.column_lower.data, c ≠ '_' ∧ pyWs c = false) :
    splitWsL (replaceL "__c".data [] (replaceL "_".data " ".data col.column_lower.data))
      ≠ [] := by
  obtain ⟨c, hc, hne, hws⟩ := hq
  have h1 : c ∈ replaceL "_".data " ".data col.column_lower.data :=
    replaceL_mem_of_ne _ _ le_rfl c hc hne
  have h2 : ∀ x ∈ replaceL "_".data " ".data col.column_lower.data, x ≠ '_' :=
    replaceL_no_underscore _ _ le_rfl
  have h3 : replaceL "__c".data [] (replaceL "_".data " ".data col.column_lower.data)
      = replaceL "_".data " ".data col.column_lower.data :=
    replaceL_dunder_noop _ _ h2
  rw [h3]
  exact splitWsAux_ne_nil _ [] (Or.inl ⟨c, h1, hws⟩)

theorem partCond_empty_term {col : CatCol}
    (hq : ∃ c ∈ col.column_lower.data, c ≠ '_' ∧ pyWs c = false) :
    ((splitWsL (replaceL "__c".data [] (replaceL "_".data " ".data
        col.column_lower.data))).contains (pyLower "").data
      || (splitWsL (replaceL "__c".data [] (replaceL "_".data " ".data
        col.column_lower.data))).any (fun part => isInfixL (pyLower "").data part))
      = true := by
  have := col_parts_ne_nil hq
  cases hcp : splitWsL (replaceL "__c".data [] (replaceL "_".data " ".data
      col.column_lower.data)) with
  | nil => exact absurd hcp this
  | cons p ps =>
    simp only [Bool.or_eq_true, List.any_eq_true]
    exact Or.inr ⟨p, List.mem_cons_self _ _, isInfixL_nil_left p⟩

theorem sf_mem_info {all_columns : List CatCol} {m : ColumnMatch}
    (hcat : ∀ col ∈ all_columns, col.column_lower = pyLower col.column)
    (h : m ∈ sfSuffixMatches "" all_columns) :
    m.similarity_score = 90 ∧ m.match_type = "pattern" ∧ pyLower m.matched_column = "__c" := by
  unfold sfSuffixMatches at h
  split at h
  · rcases List.mem_filterMap.mp h with ⟨col, hcolmem, hcol⟩
    split at hcol
    · rename_i hcond
      injection hcol with h'
      subst h'
      refine ⟨rfl, rfl, ?_⟩
      show pyLower col.column = "__c"
      rw [← hcat col hcolmem, hcond]
      decide
    · exact absurd hcol (by simp)
  · simp at h

/-- The invariant carried through the pattern phase for the empty term:
every accumulated entry is a "pattern" match scored 80, or scored 90 for a
column whose lowercased name is exactly `__c`. -/
def patInv (acc : List ColumnMatch) : Prop :=
  ∀ m ∈ acc, m.match_type = "pattern" ∧
    (m.similarity_score = 80 ∨ (m.similarity_score = 90 ∧ pyLower m.matched_column = "__c"))

theorem patInv_step (search_term search_lower : String) (acc : List ColumnMatch)
    (col : CatCol) (h : patInv acc) :
    patInv (patternPartStep search_term search_lower acc col) := by
  rcases patternPartStep_shape search_term search_lower acc col with hs | ⟨hs, _⟩
  · rw [hs]; exact h
  · rw [hs]
    intro m hm
    rcases List.mem_append.mp hm with h' | h'
    · exact h m h'
    · have : m = partMatchOf search_term col := by simpa using h'
      subst this
      exact ⟨rfl, Or.inl rfl⟩

theorem foldl_part_mono (search_term search_lower : String) (l : List CatCol)
    (acc : List ColumnMatch) (m : ColumnMatch) (h : m ∈ acc) :
    m ∈ l.foldl (patternPartStep search_term search_lower) acc := by
  rcases foldl_guarded (patternPartStep search_term search_lower) l
    (fun a x => (patternPartStep_shape search_term search_lower a x).imp id
      (fun hh => ⟨partMatchOf search_term x, hh.1, hh.2⟩)) acc with ⟨ns, h1, _⟩
  rw [h1]
  exact List.mem_append.mpr (Or.inl h)

theorem part_fold_exists :
    ∀ (l : List CatCol) (acc : List ColumnMatch), patInv acc →
      ∀ col ∈ l, (∃ c ∈ col.column_lower.data, c ≠ '_' ∧ pyWs c = false) →
        col.column_lower ≠ "__c" → col.column_lower = pyLower col.column →
        ∃ m ∈ l.foldl (patternPartStep "" (pyLower "")) acc,
          m.matched_column = col.column ∧ m.table_name = col.table ∧
          m.match_type = "pattern" ∧ m.similarity_score = 80 := by
  intro l
  induction l with
  | nil =>
    intro acc _ col hcol
    simp at hcol
  | cons x xs ih =>
    intro acc hinv col hcol hq hne hlow
    rw [List.foldl_cons]
    rcases List.mem_cons.mp hcol with hcx | hmem
    · subst hcx
      by_cases hp : hasPair acc col.column col.table = true
      · rcases List.any_eq_true.mp hp with ⟨m, hm, hmp⟩
        simp only [Bool.and_eq_true, beq_iff_eq] at hmp
        have hinfo := hinv m hm
        have hscore : m.similarity_score = 80 := by
          rcases hinfo.2 with h80 | ⟨_, hlow2⟩
          · exact h80
          · exfalso
            rw [hmp.1] at hlow2
            exact hne (hlow.trans hlow2)
        have h1 : m ∈ patternPartStep "" (pyLower "") acc col := by
          rcases patternPartStep_shape "" (pyLower "") acc col with hs | ⟨hs, _⟩
          · rw [hs]; exact hm
          · rw [hs]; exact List.mem_append.mpr (Or.inl hm)
        exact ⟨m, foldl_part_mono _ _ xs _ m h1, hmp.1, hmp.2, hinfo.1, hscore⟩
      · have hstep : patternPartStep "" (pyLower "") acc col
            = acc ++ [partMatchOf "" col] := by
          unfold patternPartStep
          dsimp only
          rw [if_pos (partCond_empty_term hq), if_neg hp]
        rw [hstep]
        exact ⟨partMatchOf "" col,
          foldl_part_mono _ _ xs _ _ (List.mem_append.mpr (Or.inr (List.mem_cons_self _ _))),
          rfl, rfl, rfl, rfl⟩
    · exact ih (patternPartStep "" (pyLower "") acc x)
        (patInv_step _ _ _ _ hinv) col hmem hq hne hlow

/-- C9 (amended): for the empty search term, whenever the schema contains a
column whose lowercased name has a character that is neither an underscore
nor whitespace, `find_column_matches` returns a non-empty result (topN at
least 1); the pattern phase emits for every such column a "pattern" match
for its (table, column) pair — at score 80.0, except that a column whose
lowercased name is exactly `__c` is instead emitted at score 90.0 by the
Salesforce-suffix step (and its score-80 duplicate is suppressed). -/
theorem empty_term_pattern_behaviour (schema_info : Schema) (top_n : Nat)
    (h1 : 1 ≤ top_n)
    (hex : ∃ col ∈ buildCatalog schema_info, ∃ c ∈ col.column_lower.data,
      c ≠ '_' ∧ pyWs c = false) :
    find_column_matches "" schema_info top_n ≠ [] ∧
    ∀ col ∈ buildCatalog schema_info,
      (∃ c ∈ col.column_lower.data, c ≠ '_' ∧ pyWs c = false) →
      ∃ m ∈ _find_pattern_matches "" (buildCatalog schema_info),
        m.matched_column = col.column ∧ m.table_name = col.table ∧
        m.match_type = "pattern" ∧
        m.similarity_score = (if col.column_lower = "__c" then 90 else 80) := by
  have part2 : ∀ col ∈ buildCatalog schema_info,
      (∃ c ∈ col.column_lower.data, c ≠ '_' ∧ pyWs c = false) →
      ∃ m ∈ _find_pattern_matches "" (buildCatalog schema_info),
        m.matched_column = col.column ∧ m.table_name = col.table ∧
        m.match_type = "pattern" ∧
        m.similarity_score = (if col.column_lower = "__c" then 90 else 80) := by
    intro col hcolmem hq
    by_cases hc : col.column_lower = "__c"
    · rw [if_pos hc]
      have hcond : col.column_lower = pyLower ("" ++ "__c") := hc.trans (by decide)
      have hmem : ColumnMatch.mk "" col.column col.table 90 "pattern"
          (some ("Salesforce custom field: '" ++ "" ++ "' -> '" ++ col.column ++ "'"))
          ∈ sfSuffixMatches "" (buildCatalog schema_info) := by
        unfold sfSuffixMatches
        rw [if_pos (by decide)]
        exact List.mem_filterMap.mpr ⟨col, hcolmem, by rw [if_pos hcond]⟩
      rcases patternPhase_extends "" (buildCatalog schema_info) with ⟨ns, hfp, _⟩
      refine ⟨ColumnMatch.mk "" col.column col.table 90 "pattern"
          (some ("Salesforce custom field: '" ++ "" ++ "' -> '" ++ col.column ++ "'")),
        ?_, rfl, rfl, rfl, rfl⟩
      rw [hfp]
      exact List.mem_append.mpr (Or.inl hmem)
    · rw [if_neg hc]
      have hinv : patInv (sfSuffixMatches "" (buildCatalog schema_info)) := by
        intro m hm
        have hi := sf_mem_info (fun c hc2 => buildCatalog_column_lower hc2) hm
        exact ⟨hi.2.1, Or.inr ⟨hi.1, hi.2.2⟩⟩
      have := part_fold_exists (buildCatalog schema_info)
        (sfSuffixMatches "" (buildCatalog schema_info)) hinv col hcolmem hq hc
        (buildCatalog_column_lower hcolmem)
      exact this
  refine ⟨?_, part2⟩
  obtain ⟨col, hcolmem, hq⟩ := hex
  rcases part2 col hcolmem hq with ⟨m, hm, _⟩
  have hpat : _find_pattern_matches "" (buildCatalog schema_info) ≠ [] :=
    List.ne_nil_of_mem hm
  have hbs : matchesBeforeSort "" schema_info top_n ≠ [] := by
    unfold matchesBeforeSort
    dsimp only
    split
    · intro hnil
      rcases List.append_eq_nil.mp hnil with ⟨_, h2⟩
      exact hpat h2
    · rename_i hlen
      intro hnil
      rw [hnil] at hlen
      simp at hlen
      omega
  unfold find_column_matches
  intro hnil
  have hlen := congrArg List.length hnil
  rw [List.length_take] at hlen
  simp only [List.length_nil] at hlen
  rcases Nat.min_eq_zero_iff.mp hlen with h0 | h0
  · omega
  · have := (List.perm_insertionSort scoreGe
      (matchesBeforeSort "" schema_info top_n)).length_eq
    rw [h0] at this
    exact hbs (List.eq_nil_of_length_eq_zero this.symm)

/-- C9 witness for the amended statement: a schema with one ordinary column
`Name`. -/
theorem empty_term_pattern_behaviour_witness :
    ((1 ≤ 1) ∧ ∃ col ∈ buildCatalog [("T", [⟨"Name"⟩])], ∃ c ∈ col.column_lower.data,
      c ≠ '_' ∧ pyWs c = false) ∧
    (find_column_matches "" [("T", [⟨"Name"⟩])] 1 ≠ [] ∧
      ∀ col ∈ buildCatalog [("T", [⟨"Name"⟩])],
        (∃ c ∈ col.column_lower.data, c ≠ '_' ∧ pyWs c = false) →
        ∃ m ∈ _find_pattern_matches "" (buildCatalog [("T", [⟨"Name"⟩])]),
          m.matched_column = col.column ∧ m.table_name = col.table ∧
          m.match_type = "pattern" ∧
          m.similarity_score = (if col.column_lower = "__c" then 90 else 80)) :=
  ⟨⟨le_refl 1, by decide⟩,
    empty_term_pattern_behaviour [("T", [⟨"Name"⟩])] 1 (le_refl 1) (by decide)⟩

end SqlAgent
